import Mathlib

/-!
# Verification of the IOMirea event distribution engine

A shallow embedding, in Lean 4, of the core of the IOMirea server:

* `iomirea/models/event_emitter.py` — the `Listener` / `EventEmitter`
  registry (three set-valued indices: channel → users, user → channels,
  user → listeners), the websocket message handler, the heartbeat
  watcher and the fan-out routines; and
* `iomirea/models/snowflake.py` — the `SnowflakeGenerator` unique-ID
  generator.

Python dictionaries are embedded as association lists (`List (Nat × β)`)
looked up with `List.lookup`; Python sets are embedded as duplicate-free
lists (`List.insert` for `set.add`, `List.erase` for `set.remove`, with
the raising behaviour of `set.remove` / `dict[key]` made explicit).
Coroutines are embedded as pure state-passing functions; the network and
the database are oracles passed in as arguments.
-/

set_option maxHeartbeats 1000000

namespace IOMirea

/-- Remove a key from an association list (embedding of Python `del d[k]`,
keeping no stale bindings). -/
def eraseKey {β : Type} (k : Nat) (m : List (Nat × β)) : List (Nat × β) :=
  m.filter (fun p => p.1 ≠ k)

/-- Set a key in an association list (embedding of Python `d[k] = v`). -/
def setKey {β : Type} (k : Nat) (v : β) (m : List (Nat × β)) : List (Nat × β) :=
  (k, v) :: eraseKey k m

/-- Membership of `x` in the set stored under key `k` (absent key = empty set). -/
def lookupMem {β : Type} [BEq β] [LawfulBEq β] (m : List (Nat × List β)) (k : Nat) (x : β) : Prop :=
  x ∈ (List.lookup k m).getD []

instance {β : Type} [BEq β] [LawfulBEq β] [DecidableEq β]
    (m : List (Nat × List β)) (k : Nat) (x : β) : Decidable (lookupMem m k x) := by
  unfold lookupMem; infer_instance

/-! ## The event emitter registry (`event_emitter.py`, class `EventEmitter`)

A `Listener` is identified by the identity of the underlying websocket
(`wsId`) and carries its `user_id` field, which is `none` until the
connection completes an IDENTIFY handshake. -/
structure Listener where
  wsId : Nat
  user_id : Option Nat
deriving DecidableEq, Repr

/-- The three set-valued indices of `EventEmitter`, with the source's
field names.  As actually used by `add_listener` / `remove_listener` /
the notify routines:

* `channels` (source `self._channels`) is keyed by **channel id** and
  holds the set of user ids in that channel (it is read as
  `self._channels.get(event.channel_id, ())` and written as
  `self._channels[channel_id].add(listener.user_id)`);
* `users` (source `self._users`) is keyed by **user id** and holds the
  snapshot of that user's channel ids taken at identify time
  (`self._users[listener.user_id] = set(channels)`);
* `listeners` (source `self._listeners`) is keyed by **user id** and
  holds that user's live listeners. -/
structure EmitterState where
  channels : List (Nat × List Nat)
  users : List (Nat × List Nat)
  listeners : List (Nat × List Listener)
deriving DecidableEq, Repr

def emptyState : EmitterState := ⟨[], [], []⟩

/-- A Python exception escaping a registry operation (`KeyError` from
`dict[key]`, or `KeyError` from `set.remove` on an absent element). -/
inductive RemErr | keyError
deriving DecidableEq, Repr

/-- The `for channel_id in channels:` loop of `add_listener`:
`self._channels[channel_id].add(listener.user_id)` creating the entry
(`{listener.user_id}`) if the channel is absent. -/
def addListenerChannels (uid : Nat) (cs : List Nat) (m : List (Nat × List Nat)) :
    List (Nat × List Nat) :=
  cs.foldl (fun acc c =>
    match List.lookup c acc with
    | some us => setKey c (us.insert uid) acc
    | none => setKey c [uid] acc) m

/-- `EventEmitter.add_listener`. The channel-membership snapshot fetched
from the database (`SELECT channel_ids FROM users WHERE id = $1`) is
passed in as the oracle argument `channels`; `set(channels)` is embedded
as `channels.dedup`. Returns the state unchanged when `user_id is None`
(warning-and-return path). -/
def add_listener (s : EmitterState) (l : Listener) (channels : List Nat) : EmitterState :=
  match l.user_id with
  | none => s
  | some uid =>
    { channels := addListenerChannels uid channels s.channels
      users := setKey uid channels.dedup s.users
      listeners :=
        match List.lookup uid s.listeners with
        | some ls => setKey uid (ls.insert l) s.listeners
        | none => setKey uid [l] s.listeners }

/-- The `for channel_id in tuple(self._users[listener.user_id]):` loop of
`remove_listener`: removes the user from each channel's member set
(deleting channel entries that become empty) and drains the user's own
channel set (deleting it once empty). A `KeyError` (absent dict key or
absent set element) aborts the loop, leaving the mutations made so far. -/
def removeChannelsLoop (uid : Nat) : List Nat → EmitterState → EmitterState × Option RemErr
  | [], s => (s, none)
  | c :: rest, s =>
    match List.lookup c s.channels with
    | none => (s, some .keyError)
    | some us =>
      if uid ∈ us then
        let us' := us.erase uid
        let channels' := if us' = [] then eraseKey c s.channels else setKey c us' s.channels
        match List.lookup uid s.users with
        | none => ({ s with channels := channels' }, some .keyError)
        | some cs =>
          if c ∈ cs then
            let cs' := cs.erase c
            let users' := if cs' = [] then eraseKey uid s.users else setKey uid cs' s.users
            removeChannelsLoop uid rest { s with channels := channels', users := users' }
          else ({ s with channels := channels' }, some .keyError)
      else (s, some .keyError)

/-- `EventEmitter.remove_listener`. No-op when the listener never
identified or its user id is absent from `_listeners`; otherwise
`self._listeners[listener.user_id].remove(listener)` — which raises
`KeyError` when the listener is not in the set — then, if the user's
listener set became empty, deletes it and cleans both membership
indices. The second component records an escaped `KeyError`. -/
def remove_listener (s : EmitterState) (l : Listener) : EmitterState × Option RemErr :=
  match l.user_id with
  | none => (s, none)
  | some uid =>
    match List.lookup uid s.listeners with
    | none => (s, none)
    | some ls =>
      if l ∈ ls then
        let ls' := ls.erase l
        if ls' ≠ [] then ({ s with listeners := setKey uid ls' s.listeners }, none)
        else
          let s1 : EmitterState := { s with listeners := eraseKey uid s.listeners }
          match List.lookup uid s1.users with
          | none => (s1, some .keyError)
          | some cs => removeChannelsLoop uid cs s1
      else (s, some .keyError)

/-- One registry-mutating call: `add_listener` (with the channel snapshot
the database returned for that call) or `remove_listener`. -/
inductive Op
  | add (l : Listener) (channels : List Nat)
  | remove (l : Listener)
deriving DecidableEq, Repr

/-- Apply one call to the registry state. A call that raises `KeyError`
leaves the partially-mutated state that the exception escaped from. -/
def applyOp (s : EmitterState) : Op → EmitterState
  | .add l cs => add_listener s l cs
  | .remove l => (remove_listener s l).1

def runOps (s : EmitterState) : List Op → EmitterState
  | [] => s
  | op :: rest => runOps (applyOp s op) rest

/-- The association list has no duplicate keys (true of every state the
code builds, since entries are only created by `d[k] = v`). -/
def NodupKeys {β : Type} (m : List (Nat × β)) : Prop := (m.map Prod.fst).Nodup

/-- The registry invariant, §3 of the spec, strengthened to an inductive
invariant: the two membership indices mirror each other, no index maps a
key to an empty set, set values are duplicate-free, the `users` and
`listeners` indices have exactly the same keys, and keys are unique. -/
def Inv (s : EmitterState) : Prop :=
  (∀ p ∈ s.channels, p.2 ≠ [] ∧ p.2.Nodup ∧ ∀ u ∈ p.2, lookupMem s.users u p.1) ∧
  (∀ p ∈ s.users, p.2 ≠ [] ∧ p.2.Nodup ∧ ∀ c ∈ p.2, lookupMem s.channels c p.1) ∧
  (∀ p ∈ s.listeners, p.2 ≠ [] ∧ p.2.Nodup) ∧
  (∀ p ∈ s.users, (List.lookup p.1 s.listeners).isSome = true) ∧
  (∀ p ∈ s.listeners, (List.lookup p.1 s.users).isSome = true) ∧
  NodupKeys s.channels ∧ NodupKeys s.users ∧ NodupKeys s.listeners

instance (s : EmitterState) : Decidable (Inv s) := by
  unfold Inv NodupKeys lookupMem; infer_instance

/-- Side condition under which one call keeps the invariant: an
`add_listener` call must carry a non-empty channel snapshot that agrees
with the snapshot already registered for that user, if any (the code
overwrites `self._users[user_id]` wholesale, so a *changed* snapshot for
an already-registered user desynchronizes the indices, and an *empty*
snapshot stores an empty set). `remove_listener` needs no condition. -/
def SideCond (s : EmitterState) : Op → Prop
  | .add l cs =>
    cs ≠ [] ∧ ∀ uid, l.user_id = some uid →
      List.lookup uid s.users = none ∨ List.lookup uid s.users = some cs.dedup
  | .remove _ => True

instance (s : EmitterState) (op : Op) : Decidable (SideCond s op) := by
  unfold SideCond; cases op <;> infer_instance

/-- Every call of the trace satisfies its side condition in the state it
is applied to. -/
def GoodTrace : EmitterState → List Op → Prop
  | _, [] => True
  | s, op :: rest => SideCond s op ∧ GoodTrace (applyOp s op) rest

instance : ∀ (s : EmitterState) (ops : List Op), Decidable (GoodTrace s ops)
  | _, [] => by unfold GoodTrace; infer_instance
  | s, op :: rest =>
    have : Decidable (GoodTrace (applyOp s op) rest) := instDecidableGoodTrace _ _
    by unfold GoodTrace; infer_instance

/-- Expected registration status of a single listener after one call,
computed from the call alone: an `add_listener` call registers exactly
the listener it was given, provided it had identified; a
`remove_listener` call deregisters exactly the listener it was given. -/
def trackOp (P : Listener → Bool) : Op → Listener → Bool
  | .add l' _, x => if x = l' then l'.user_id.isSome else P x
  | .remove l', x => if x = l' then false else P x

def trackOps (P : Listener → Bool) : List Op → Listener → Bool
  | [] => P
  | op :: rest => trackOps (trackOp P op) rest

/-- All listener sets are duplicate-free (holds along every trace). -/
def ListenersWF (s : EmitterState) : Prop := ∀ p ∈ s.listeners, p.2.Nodup

/-! ## Wire protocol values (`event_emitter.py`, `Opcode` / `CloseCode`) -/

inductive Opcode
  | DISPATCH | HEARTBEAT | IDENTIFY | PRESENCE | RESUME | RECONNECT
  | REQUEST_USERS | INVALIDATE_SESSION | HELLO | HEARTBEAT_ACK
deriving DecidableEq, Repr

def Opcode.value : Opcode → Nat
  | .DISPATCH => 0
  | .HEARTBEAT => 1
  | .IDENTIFY => 2
  | .PRESENCE => 3
  | .RESUME => 4
  | .RECONNECT => 5
  | .REQUEST_USERS => 6
  | .INVALIDATE_SESSION => 7
  | .HELLO => 8
  | .HEARTBEAT_ACK => 9

inductive CloseCode
  | NORMAL | UNKNOWN_OPCODE | BAD_PAYLOAD | NOT_IDENTIFIED | BAD_TOKEN
deriving DecidableEq, Repr

def CloseCode.value : CloseCode → Nat
  | .NORMAL => 1000
  | .UNKNOWN_OPCODE => 4001
  | .BAD_PAYLOAD => 4002
  | .NOT_IDENTIFIED => 4003
  | .BAD_TOKEN => 4004

/-! ## JSON values and the websocket send path (`Listener.notify` /
`Listener.event_notify`) -/

/-- A JSON value, as far as the engine inspects one. -/
inductive JValue
  | num (n : Int)
  | str (s : String)
  | obj (fields : List (String × JValue))
  | arr (elems : List JValue)

/-- The state of the underlying websocket that `notify` can observe:
whether the peer already closed it (in which case `send_json` raises
`RuntimeError`). -/
structure WSState where
  closed : Bool
deriving DecidableEq, Repr

/-- `self.ws.send_json(...)`: raises `RuntimeError` when the websocket was
closed from the remote side, otherwise delivers. -/
def send_json (ws : WSState) (j : JValue) : Except Unit JValue :=
  if ws.closed then .error () else .ok j

/-- The envelope `Listener.notify` serializes: `{"op": opcode.value}`
when `data is None`, else `{"op": opcode.value, "d": data}`. -/
def notifyEnvelope (opcode : Opcode) (data : Option JValue) : JValue :=
  match data with
  | none => .obj [("op", .num opcode.value)]
  | some d => .obj [("op", .num opcode.value), ("d", d)]

/-- `Listener.notify`: sends the envelope; the `RuntimeError` from a
closed websocket is caught and turned into `false`. -/
def wsNotify (ws : WSState) (opcode : Opcode) (data : Option JValue) : Bool :=
  match send_json ws (notifyEnvelope opcode data) with
  | .error _ => false
  | .ok _ => true

/-- The envelope `Listener.event_notify` serializes:
`{"op": DISPATCH, "d": event.payload, "t": event.name}`. -/
def eventEnvelope (eventName : String) (payload : JValue) : JValue :=
  .obj [("op", .num Opcode.DISPATCH.value), ("d", payload), ("t", .str eventName)]

/-- `Listener.event_notify`: same false-on-closed contract as `notify`. -/
def wsEventNotify (ws : WSState) (eventName : String) (payload : JValue) : Bool :=
  match send_json ws (eventEnvelope eventName payload) with
  | .error _ => false
  | .ok _ => true

/-! ## The inbound message handler (`Listener.listen` / `Listener._handle`) -/

/-- A Python exception relevant to the message-handling path. -/
inductive PyExc | keyError | typeError | valueError
deriving DecidableEq, Repr

/-- Python `data[k]`: `KeyError` when the key is missing from a dict,
`TypeError` when `data` is not a dict at all. -/
def getItem (j : JValue) (k : String) : Except PyExc JValue :=
  match j with
  | .obj fields =>
    match List.lookup k fields with
    | some v => .ok v
    | none => .error .keyError
  | _ => .error .typeError

/-- What one execution of `Listener._handle` does (when no exception
escapes it). -/
inductive HandleAction
  | heartbeatAck            -- updated `_last_hb`, replied HEARTBEAT_ACK
  | ignored                 -- no branch matched; returned without any action
  | invalidSession          -- sent INVALIDATE_SESSION, closed with BAD_TOKEN
  | identified (uid : Nat)  -- recorded `user_id`, called `add_listener`
deriving DecidableEq, Repr

/-- `Listener._handle(data)`. The token verification oracle `verify`
stands for `Token.from_string(...)` + `token.verify()`; `none` covers
every failure that the source maps to INVALIDATE_SESSION + BAD_TOKEN
(`ValueError` / `RuntimeError`). -/
def handle (data : JValue) (verify : JValue → Option Nat) :
    Except PyExc HandleAction := do
  let op ← getItem data "op"
  match op with
  | .num n =>
    if n = Opcode.HEARTBEAT.value then
      return .heartbeatAck
    else if n = Opcode.IDENTIFY.value then
      let d ← getItem data "d"
      let token ← getItem d "token"
      match verify token with
      | some uid => return .identified uid
      | none => return .invalidSession
    else
      return .ignored
  | _ =>
    -- a non-numeric `data["op"]` compares unequal to both opcode values
    return .ignored

/-- Outcome of the `listen` loop body for one inbound frame. -/
inductive MsgOutcome
  | handled (a : HandleAction)
  | closedBadPayload   -- `except KeyError:` → `close(code=BAD_PAYLOAD)`
  | uncaught (e : PyExc)  -- exception escaped `listen` (only KeyError is caught)
deriving DecidableEq, Repr

/-- One iteration of the `async for msg in self.ws` loop of
`Listener.listen`: `json.loads` (`raw = none` stands for a parse failure,
which raises a `ValueError` subclass), then `_handle` under
`except KeyError`. -/
def processMessage (raw : Option JValue) (verify : JValue → Option Nat) : MsgOutcome :=
  match raw with
  | none => .uncaught .valueError
  | some data =>
    match handle data verify with
    | .ok a => .handled a
    | .error .keyError => .closedBadPayload
    | .error e => .uncaught e

/-! ## Fan-out (`EventEmitter.notify_channel` / `notify_channels` /
`notify_everyone`)

`fails l = true` is the delivery oracle: `await listener.event_notify(event)`
returned `False` for `l` (its websocket was closed by the peer). Each
routine returns `(sent, to_close, ok)`: the listeners it called
`event_notify` on, in order; the collected `to_close` list; and whether the
iteration completed without a `KeyError` (`self._listeners[user_id]` /
`self._channels[channel_id]` are unguarded lookups). -/

def fanoutUsers (s : EmitterState) (fails : Listener → Bool) :
    List Nat → List Listener × List Listener × Bool
  | [] => ([], [], true)
  | u :: rest =>
    match List.lookup u s.listeners with
    | none => ([], [], false)
    | some ls =>
      let r := fanoutUsers s fails rest
      (ls ++ r.1, ls.filter fails ++ r.2.1, r.2.2)

/-- `notify_channel(event)`: iterates
`self._channels.get(event.channel_id, ())`, then each user's listeners. -/
def notify_channel (s : EmitterState) (fails : Listener → Bool) (channelId : Nat) :
    List Listener × List Listener × Bool :=
  fanoutUsers s fails ((List.lookup channelId s.channels).getD [])

def fanoutChannels (s : EmitterState) (fails : Listener → Bool) :
    List Nat → List Listener × List Listener × Bool
  | [] => ([], [], true)
  | c :: rest =>
    match List.lookup c s.channels with
    | none => ([], [], false)
    | some us =>
      let r1 := fanoutUsers s fails us
      if r1.2.2 then
        let r2 := fanoutChannels s fails rest
        (r1.1 ++ r2.1, r1.2.1 ++ r2.2.1, r2.2.2)
      else r1

/-- `notify_channels(event)`: iterates `self._users.get(event.user_id, ())`,
then each of those channels' users, then each user's listeners. -/
def notify_channels (s : EmitterState) (fails : Listener → Bool) (userId : Nat) :
    List Listener × List Listener × Bool :=
  fanoutChannels s fails ((List.lookup userId s.users).getD [])

/-- `notify_everyone(event)`: iterates `self._listeners.values()`. Never
raises. -/
def notify_everyone (s : EmitterState) (fails : Listener → Bool) :
    List Listener × List Listener :=
  s.listeners.foldr (fun p acc => (p.2 ++ acc.1, p.2.filter fails ++ acc.2)) ([], [])

/-! ## Lock/IO traces of the fan-out routines (for the locking discipline) -/

/-- Observable actions of one fan-out routine, in program order. -/
inductive FanAction
  | acquire               -- `async with self._lock:` entry
  | release               -- lock released (block exit, also on exception)
  | send (l : Listener)   -- `await listener.event_notify(event)`
  | close (l : Listener)  -- `await listener.close()`
deriving DecidableEq, Repr

/-- `notify_channel` as an action trace: sends happen inside the
`async with self._lock` block; the collected closes happen after it (and
not at all if a `KeyError` escaped, which also releases the lock). -/
def notify_channel_trace (s : EmitterState) (fails : Listener → Bool)
    (channelId : Nat) : List FanAction :=
  let r := notify_channel s fails channelId
  [.acquire] ++ r.1.map .send ++ [.release] ++
    (if r.2.2 then r.2.1.map .close else [])

def notify_channels_trace (s : EmitterState) (fails : Listener → Bool)
    (userId : Nat) : List FanAction :=
  let r := notify_channels s fails userId
  [.acquire] ++ r.1.map .send ++ [.release] ++
    (if r.2.2 then r.2.1.map .close else [])

def notify_everyone_trace (s : EmitterState) (fails : Listener → Bool) :
    List FanAction :=
  let r := notify_everyone s fails
  [.acquire] ++ r.1.map .send ++ [.release] ++ r.2.map .close

/-- Is some `send` action performed while the lock is held (depth > 0)? -/
def sendsUnderLock : List FanAction → Nat → Bool
  | [], _ => false
  | .acquire :: rest, d => sendsUnderLock rest (d + 1)
  | .release :: rest, d => sendsUnderLock rest (d - 1)
  | .send _ :: rest, d => decide (0 < d) || sendsUnderLock rest d
  | .close _ :: rest, d => sendsUnderLock rest d

/-- Is some `close` action performed while the lock is held? -/
def closesUnderLock : List FanAction → Nat → Bool
  | [], _ => false
  | .acquire :: rest, d => closesUnderLock rest (d + 1)
  | .release :: rest, d => closesUnderLock rest (d - 1)
  | .send _ :: rest, d => closesUnderLock rest d
  | .close _ :: rest, d => decide (0 < d) || closesUnderLock rest d

/-! ## The heartbeat watcher (`Listener._check_hb`) -/

def HEARTBEAT_INTERVAL : Nat := 30000

/-- One iteration's observations: `self.ws.closed` at the loop head, and
`time.time() - self._last_hb` (seconds) measured after the sleep. -/
structure HbObs where
  closed : Bool
  elapsed : ℚ
deriving DecidableEq

/-- Arguments of a `Listener.close` call. -/
structure CloseCall where
  code : Nat
  cleanup : Bool
deriving DecidableEq, Repr

/-- `Listener._check_hb` over a (finite prefix of the) observation
sequence: loop `while not self.ws.closed`, sleep, compute
`response_error = elapsed - interval` and break when it exceeds
`interval / 10`; both loop exits fall through to `await self.close()`
with all arguments defaulted (`code=NORMAL`, `cleanup=True`).
Returns `none` while the watcher is still looping. -/
def check_hb (interval : ℚ) : List HbObs → Option CloseCall
  | [] => none
  | o :: rest =>
    if o.closed then some ⟨CloseCode.NORMAL.value, true⟩
    else if o.elapsed - interval > interval / 10 then
      some ⟨CloseCode.NORMAL.value, true⟩
    else check_hb interval rest

/-! ## The snowflake generator (`snowflake.py`) -/

def WORKER_BITS : Nat := 5
def DATACENTER_BITS : Nat := 5
def SEQUENCE_BITS : Nat := 12

def MAX_WORKER_ID : Int := Int.xor (-1) ((-1) <<< (WORKER_BITS : Int))
def MAX_DATACENTER_ID : Int := Int.xor (-1) ((-1) <<< (DATACENTER_BITS : Int))

def WORKER_SHIFT : Nat := SEQUENCE_BITS
def DATACENTER_SHIFT : Nat := SEQUENCE_BITS + WORKER_BITS
def TIMESTAMP_SHIFT : Nat := SEQUENCE_BITS + WORKER_BITS + DATACENTER_BITS

def SEQUENCE_MASK : Int := Int.xor (-1) ((-1) <<< (SEQUENCE_BITS : Int))

/-- Generator state. `EPOCH_OFFSET_MS` lives in `constants.py`, outside
the embedded sources; it is threaded through as the `epochOffset`
parameter instead. -/
structure SnowflakeGenerator where
  worker_id : Nat
  datacenter_id : Nat
  sequence : Nat
  last_timestamp : Int
deriving DecidableEq, Repr

/-- `SnowflakeGenerator.__init__`: validates both ids against their 5-bit
ranges, starts with `sequence = 0` and `_last_timestamp = -1`. -/
def mkSnowflakeGenerator (worker_id datacenter_id : Nat) : Option SnowflakeGenerator :=
  if (worker_id : Int) ≤ MAX_WORKER_ID ∧ (datacenter_id : Int) ≤ MAX_DATACENTER_ID then
    some ⟨worker_id, datacenter_id, 0, -1⟩
  else none

/-- The millisecond clock is an oracle: the list of successive
`gen_timestamp()` readings. -/
def til_next_ms (last : Int) : List Nat → Option (Nat × List Nat)
  | [] => none
  | t :: rest => if (t : Int) ≤ last then til_next_ms last rest else some (t, rest)

/-- The ID composition expression of `gen_id`:
`((timestamp - EPOCH_OFFSET_MS) << 22) | (datacenter_id << 17) | (worker_id << 12) | sequence`. -/
def snowflake_compose (epochOffset timestamp : Int) (dc w seq : Nat) : Int :=
  Int.lor (Int.lor (Int.lor ((timestamp - epochOffset) <<< (TIMESTAMP_SHIFT : Int))
      ((dc : Int) <<< (DATACENTER_SHIFT : Int)))
    ((w : Int) <<< (WORKER_SHIFT : Int)))
    (seq : Int)

inductive GenError
  | clockBackwards  -- the `RuntimeError` raised when `timestamp < self._last_timestamp`
  | diverges        -- `til_next_ms` spins forever (clock oracle exhausted)
deriving DecidableEq, Repr

/-- `SnowflakeGenerator.gen_id`, consuming clock readings from the oracle
list. Returns the result (or the exception), the generator state as
mutated so far, and the rest of the clock. -/
def gen_id (epochOffset : Int) (g : SnowflakeGenerator) :
    List Nat → Except GenError Int × SnowflakeGenerator × List Nat
  | [] => (.error .diverges, g, [])
  | t :: rest =>
    if (t : Int) < g.last_timestamp then (.error .clockBackwards, g, rest)
    else if g.last_timestamp = (t : Int) then
      let seq := ((g.sequence : Int) + 1).toNat &&& SEQUENCE_MASK.toNat
      if seq = 0 then
        match til_next_ms g.last_timestamp rest with
        | none => (.error .diverges, { g with sequence := 0 }, [])
        | some (t2, rest2) =>
          (.ok (snowflake_compose epochOffset (t2 : Int) g.datacenter_id g.worker_id 0),
           { g with sequence := 0, last_timestamp := (t2 : Int) }, rest2)
      else
        (.ok (snowflake_compose epochOffset (t : Int) g.datacenter_id g.worker_id seq),
         { g with sequence := seq, last_timestamp := (t : Int) }, rest)
    else
      (.ok (snowflake_compose epochOffset (t : Int) g.datacenter_id g.worker_id 0),
       { g with sequence := 0, last_timestamp := (t : Int) }, rest)

/-- `n` successive `gen_id` calls: collects the returned IDs; a
`clockBackwards` exception propagates to the caller (who may call again);
a diverging call never returns, so the run ends there. -/
def runGen (epochOffset : Int) : Nat → SnowflakeGenerator → List Nat →
    List Int × SnowflakeGenerator × List Nat
  | 0, g, clock => ([], g, clock)
  | n + 1, g, clock =>
    match gen_id epochOffset g clock with
    | (.ok i, g2, clock2) =>
      let r := runGen epochOffset n g2 clock2
      (i :: r.1, r.2)
    | (.error .clockBackwards, g2, clock2) => runGen epochOffset n g2 clock2
    | (.error .diverges, g2, clock2) => ([], g2, clock2)


/-- Well-formedness of a generator state: the id fields respect their
bit widths (guaranteed by construction), the sequence respects its 12
bits (guaranteed by the mask), and `_last_timestamp` is either the `-1`
sentinel or an actual clock reading at or after the epoch offset. -/
def GenWF (epochOffset : Int) (g : SnowflakeGenerator) : Prop :=
  g.worker_id < 32 ∧ g.datacenter_id < 32 ∧ g.sequence < 4096 ∧
  (g.last_timestamp = -1 ∨ ∃ t : Nat, g.last_timestamp = (t : Int) ∧ epochOffset ≤ (t : Int))

/-- The ID a generator state would compose (its last timestamp and
current sequence). Every ID `gen_id` returns is `stateId` of the state
it leaves behind. -/
def stateId (epochOffset : Int) (g : SnowflakeGenerator) : Int :=
  snowflake_compose epochOffset g.last_timestamp g.datacenter_id g.worker_id g.sequence

/-! ## Theorems -/

theorem lookup_eraseKey {β : Type} (k k' : Nat) (m : List (Nat × β)) :
    List.lookup k' (eraseKey k m) = if k' = k then none else List.lookup k' m := by
  induction m with
  | nil => simp [eraseKey]
  | cons p rest ih =>
    rcases p with ⟨a, b⟩
    by_cases hak : a = k
    · subst hak
      have he : eraseKey a ((a, b) :: rest) = eraseKey a rest := by
        simp [eraseKey, List.filter_cons]
      rw [he, ih]
      by_cases hk : k' = a
      · simp [hk]
      · have hb : (k' == a) = false := by simp [hk]
        simp [hk, List.lookup_cons, hb]
    · have he : eraseKey k ((a, b) :: rest) = (a, b) :: eraseKey k rest := by
        simp [eraseKey, List.filter_cons, hak]
      rw [he]
      by_cases hka : k' = a
      · subst hka
        have hkk : k' ≠ k := fun h => hak (by omega)
        simp [hkk]
      · have hb : (k' == a) = false := by simp [hka]
        simp [List.lookup_cons, hb, ih]

theorem lookup_setKey_self {β : Type} (k : Nat) (v : β) (m : List (Nat × β)) :
    List.lookup k (setKey k v m) = some v := by
  simp [setKey]

theorem lookup_setKey_ne {β : Type} {k k' : Nat} (v : β) (m : List (Nat × β))
    (h : k' ≠ k) : List.lookup k' (setKey k v m) = List.lookup k' m := by
  have hb : (k' == k) = false := by simp [h]
  simp [setKey, List.lookup_cons, hb, lookup_eraseKey, h]

theorem mem_eraseKey {β : Type} {k : Nat} {m : List (Nat × β)} {p : Nat × β} :
    p ∈ eraseKey k m ↔ p ∈ m ∧ p.1 ≠ k := by
  simp [eraseKey, List.mem_filter]

theorem mem_setKey {β : Type} {k : Nat} {v : β} {m : List (Nat × β)} {p : Nat × β} :
    p ∈ setKey k v m ↔ p = (k, v) ∨ (p ∈ m ∧ p.1 ≠ k) := by
  simp [setKey, mem_eraseKey]

theorem lookup_mem {β : Type} {k : Nat} {v : β} {m : List (Nat × β)}
    (h : List.lookup k m = some v) : (k, v) ∈ m := by
  rcases List.lookup_eq_some_iff.1 h with ⟨l₁, l₂, rfl, -⟩
  simp

theorem lookupMem_iff {β : Type} [BEq β] [LawfulBEq β] {m : List (Nat × List β)}
    {k : Nat} {x : β} : lookupMem m k x ↔ ∃ v, List.lookup k m = some v ∧ x ∈ v := by
  unfold lookupMem
  cases h : List.lookup k m <;> simp

theorem nodupKeys_eraseKey {β : Type} {m : List (Nat × β)} (k : Nat)
    (h : NodupKeys m) : NodupKeys (eraseKey k m) :=
  ((List.filter_sublist m).map Prod.fst).nodup h

theorem nodupKeys_setKey {β : Type} {m : List (Nat × β)} (k : Nat) (v : β)
    (h : NodupKeys m) : NodupKeys (setKey k v m) := by
  refine List.Nodup.cons ?_ (nodupKeys_eraseKey k h)
  intro hk
  rcases List.mem_map.1 hk with ⟨p, hp, hp1⟩
  exact absurd hp1 (mem_eraseKey.1 hp).2

theorem mem_lookup {β : Type} {k : Nat} {v : β} {m : List (Nat × β)}
    (hm : NodupKeys m) (h : (k, v) ∈ m) : List.lookup k m = some v := by
  induction m with
  | nil => simp at h
  | cons p rest ih =>
    rcases p with ⟨a, b⟩
    rcases List.mem_cons.1 h with h1 | h1
    · cases h1
      simp
    · have hka : k ≠ a := by
        rintro rfl
        exact (List.nodup_cons.1 hm).1 (List.mem_map.2 ⟨(k, v), h1, rfl⟩)
      have hb : (k == a) = false := by simp [hka]
      simpa [List.lookup_cons, hb] using ih (List.nodup_cons.1 hm).2 h1

/-! ### Lookup characterizations of the operations -/
theorem lookup_addListenerChannels (uid : Nat) (cs : List Nat)
    (m : List (Nat × List Nat)) (c : Nat) :
    List.lookup c (addListenerChannels uid cs m) =
      if c ∈ cs then
        some (match List.lookup c m with
              | some us => us.insert uid
              | none => [uid])
      else List.lookup c m := by
  induction cs generalizing m with
  | nil => simp [addListenerChannels]
  | cons c0 rest ih =>
    have hstep : addListenerChannels uid (c0 :: rest) m =
        addListenerChannels uid rest
          (match List.lookup c0 m with
           | some us => setKey c0 (us.insert uid) m
           | none => setKey c0 [uid] m) := by
      cases h : List.lookup c0 m <;> simp [addListenerChannels, h]
    rw [hstep, ih]
    by_cases hc0 : c = c0
    · subst hc0
      have hm1 : List.lookup c (match List.lookup c m with
           | some us => setKey c (us.insert uid) m
           | none => setKey c [uid] m) =
          some (match List.lookup c m with
                | some us => us.insert uid
                | none => [uid]) := by
        cases List.lookup c m <;> simp [lookup_setKey_self]
      by_cases hr : c ∈ rest
      · rw [if_pos hr, hm1]
        have : uid ∈ (match List.lookup c m with
                | some us => us.insert uid
                | none => [uid]) := by
          cases List.lookup c m <;> simp [List.mem_insert_iff]
        simp only [List.mem_cons, true_or, if_pos]
        congr 1
        exact List.insert_of_mem this
      · rw [if_neg hr, hm1]
        simp
    · have hm1 : List.lookup c (match List.lookup c0 m with
           | some us => setKey c0 (us.insert uid) m
           | none => setKey c0 [uid] m) = List.lookup c m := by
        cases List.lookup c0 m <;> simp [lookup_setKey_ne _ _ hc0]
      rw [hm1]
      by_cases hr : c ∈ rest
      · simp [hr, hc0]
      · simp [hr, hc0]

theorem nodupKeys_addListenerChannels (uid : Nat) (cs : List Nat)
    {m : List (Nat × List Nat)} (h : NodupKeys m) :
    NodupKeys (addListenerChannels uid cs m) := by
  induction cs generalizing m with
  | nil => simpa [addListenerChannels] using h
  | cons c0 rest ih =>
    have hstep : addListenerChannels uid (c0 :: rest) m =
        addListenerChannels uid rest
          (match List.lookup c0 m with
           | some us => setKey c0 (us.insert uid) m
           | none => setKey c0 [uid] m) := by
      cases h : List.lookup c0 m <;> simp [addListenerChannels, h]
    rw [hstep]
    apply ih
    cases List.lookup c0 m <;> exact nodupKeys_setKey _ _ h

theorem insert_ne_nil {α : Type} [DecidableEq α] {l : List α} (a : α) (h : l ≠ []) :
    l.insert a ≠ [] := by
  by_cases hm : a ∈ l
  · simpa [List.insert_of_mem hm] using h
  · simp [List.insert_of_not_mem hm]

theorem dedup_ne_nil {α : Type} [DecidableEq α] {l : List α} (h : l ≠ []) :
    l.dedup ≠ [] := by
  rcases l with _ | ⟨x, rest⟩
  · exact absurd rfl h
  · exact List.ne_nil_of_mem (List.mem_dedup.2 (List.mem_cons_self x rest))

/-- `add_listener` keeps the registry invariant, provided the snapshot is
non-empty and agrees with the user's currently-registered snapshot. -/
theorem add_listener_preserves_Inv {s : EmitterState} {l : Listener} {cs : List Nat}
    (hInv : Inv s) (hcs : cs ≠ [])
    (hsnap : ∀ uid, l.user_id = some uid →
      List.lookup uid s.users = none ∨ List.lookup uid s.users = some cs.dedup) :
    Inv (add_listener s l cs) := by
  obtain ⟨hC, hU, hL, hUL, hLU, hKC, hKU, hKL⟩ := hInv
  cases hid : l.user_id with
  | none =>
    unfold add_listener
    rw [hid]
    exact ⟨hC, hU, hL, hUL, hLU, hKC, hKU, hKL⟩
  | some uid =>
    have hsnap' := hsnap uid hid
    have hstate : ∃ LS : List Listener,
        add_listener s l cs =
          ⟨addListenerChannels uid cs s.channels, setKey uid cs.dedup s.users,
           setKey uid LS s.listeners⟩ ∧ LS ≠ [] ∧ LS.Nodup := by
      cases h : List.lookup uid s.listeners with
      | none => exact ⟨[l], by simp [add_listener, hid, h], by simp, by simp⟩
      | some ls =>
        have hmem := lookup_mem h
        obtain ⟨hne, hnd⟩ := hL _ hmem
        exact ⟨ls.insert l, by simp [add_listener, hid, h], insert_ne_nil l hne,
          hnd.insert⟩
    obtain ⟨LS, hst, hLSne, hLSnd⟩ := hstate
    rw [hst]
    have hch := lookup_addListenerChannels uid cs s.channels
    have hKC' := nodupKeys_addListenerChannels uid cs hKC
    have hKU' := nodupKeys_setKey uid cs.dedup hKU
    have hKL' := nodupKeys_setKey uid LS hKL
    -- membership of uid's new channel set
    have husnew : List.lookup uid (setKey uid cs.dedup s.users) = some cs.dedup :=
      lookup_setKey_self _ _ _
    -- a user other than uid keeps its old channel set
    have husold : ∀ u, u ≠ uid →
        List.lookup u (setKey uid cs.dedup s.users) = List.lookup u s.users :=
      fun u hu => lookup_setKey_ne _ _ hu
    -- an old member of any channel, looked at in the new `users` map
    have hmemNew : ∀ (u c : Nat), lookupMem s.users u c →
        lookupMem (setKey uid cs.dedup s.users) u c := by
      intro u c hm
      rcases lookupMem_iff.1 hm with ⟨w, hw, hcw⟩
      by_cases hu : u = uid
      · subst hu
        rcases hsnap' with hn | hsome
        · rw [hn] at hw; cases hw
        · rw [hsome] at hw
          cases hw
          exact lookupMem_iff.2 ⟨cs.dedup, husnew, hcw⟩
      · exact lookupMem_iff.2 ⟨w, by rw [husold u hu]; exact hw, hcw⟩
    unfold Inv
    refine ⟨?_, ?_, ?_, ?_, ?_, hKC', hKU', hKL'⟩
    · -- channel → users index
      rintro ⟨c, v⟩ hp
      have hv : List.lookup c (addListenerChannels uid cs s.channels) = some v :=
        mem_lookup hKC' hp
      rw [hch c] at hv
      by_cases hin : c ∈ cs
      · rw [if_pos hin] at hv
        cases hus : List.lookup c s.channels with
        | some us =>
          rw [hus] at hv
          obtain ⟨hne, hnd, hmem⟩ := hC _ (lookup_mem hus)
          cases hv
          refine ⟨insert_ne_nil uid hne, hnd.insert, ?_⟩
          · intro u hu
            rcases List.mem_insert_iff.1 hu with rfl | hold
            · exact lookupMem_iff.2 ⟨cs.dedup, husnew, List.mem_dedup.2 hin⟩
            · exact hmemNew u c (hmem u hold)
        | none =>
          rw [hus] at hv
          cases hv
          refine ⟨by simp, by simp, ?_⟩
          intro u hu
          rcases List.mem_singleton.1 hu with rfl
          exact lookupMem_iff.2 ⟨cs.dedup, husnew, List.mem_dedup.2 hin⟩
      · rw [if_neg hin] at hv
        obtain ⟨hne, hnd, hmem⟩ := hC _ (lookup_mem hv)
        refine ⟨hne, hnd, ?_⟩
        intro u hu
        exact hmemNew u c (hmem u hu)
    · -- user → channels index
      rintro ⟨u, v⟩ hp
      have hv : List.lookup u (setKey uid cs.dedup s.users) = some v :=
        mem_lookup hKU' hp
      by_cases hu : u = uid
      · subst hu
        rw [husnew] at hv
        cases hv
        refine ⟨dedup_ne_nil hcs, cs.nodup_dedup, ?_⟩
        intro c hc
        have hcin : c ∈ cs := List.mem_dedup.1 hc
        cases hus : List.lookup c s.channels with
        | some us =>
          exact lookupMem_iff.2 ⟨us.insert u,
            by show List.lookup c (addListenerChannels u cs s.channels) = _
               rw [hch c, if_pos hcin, hus], List.mem_insert_self u us⟩
        | none =>
          exact lookupMem_iff.2 ⟨[u],
            by show List.lookup c (addListenerChannels u cs s.channels) = _
               rw [hch c, if_pos hcin, hus], List.mem_singleton_self u⟩
      · rw [husold u hu] at hv
        obtain ⟨hne, hnd, hmem⟩ := hU _ (lookup_mem hv)
        refine ⟨hne, hnd, ?_⟩
        intro c hc
        rcases lookupMem_iff.1 (hmem c hc) with ⟨us, hus, humem⟩
        by_cases hcin : c ∈ cs
        · exact lookupMem_iff.2 ⟨us.insert uid,
            by show List.lookup c (addListenerChannels uid cs s.channels) = _
               rw [hch c, if_pos hcin, hus], List.mem_insert_of_mem humem⟩
        · exact lookupMem_iff.2 ⟨us,
            by show List.lookup c (addListenerChannels uid cs s.channels) = _
               rw [hch c, if_neg hcin]; exact hus, humem⟩
    · -- listener sets non-empty and duplicate-free
      rintro ⟨u, v⟩ hp
      rcases mem_setKey.1 hp with h | ⟨hold, -⟩
      · cases h; exact ⟨hLSne, hLSnd⟩
      · exact hL _ hold
    · -- users ⊆ listeners (keys)
      rintro ⟨u, v⟩ hp
      rcases mem_setKey.1 hp with h | ⟨hold, hne⟩
      · cases h; simp [lookup_setKey_self]
      · have : List.lookup u (setKey uid LS s.listeners) = List.lookup u s.listeners :=
          lookup_setKey_ne _ _ hne
        rw [this]
        exact hUL _ hold
    · -- listeners ⊆ users (keys)
      rintro ⟨u, v⟩ hp
      rcases mem_setKey.1 hp with h | ⟨hold, hne⟩
      · cases h; simp [lookup_setKey_self]
      · have : List.lookup u (setKey uid cs.dedup s.users) = List.lookup u s.users :=
          lookup_setKey_ne _ _ hne
        rw [this]
        exact hLU _ hold

/-- Characterization of the cleanup loop of `remove_listener` when its
preconditions hold (the user's remaining channel list is exactly `rest`,
duplicate-free, and the user is a member of each of those channels): the
loop completes without `KeyError`, leaves `listeners` alone, deletes the
user's entry in `users`, and removes the user from each of the channels
(deleting channel entries left empty). -/
theorem removeChannelsLoop_spec (uid : Nat) :
    ∀ (rest : List Nat) (t : EmitterState),
    (if rest = [] then List.lookup uid t.users = none
     else List.lookup uid t.users = some rest) →
    rest.Nodup →
    (∀ c ∈ rest, ∃ us, List.lookup c t.channels = some us ∧ uid ∈ us) →
    ∃ sf, removeChannelsLoop uid rest t = (sf, none)
      ∧ (∀ u, List.lookup u sf.users = if u = uid then none else List.lookup u t.users)
      ∧ sf.listeners = t.listeners
      ∧ (∀ c, List.lookup c sf.channels =
          if c ∈ rest then
            (if ((List.lookup c t.channels).getD []).erase uid = [] then none
             else some (((List.lookup c t.channels).getD []).erase uid))
          else List.lookup c t.channels)
      ∧ (NodupKeys t.channels → NodupKeys sf.channels)
      ∧ (NodupKeys t.users → NodupKeys sf.users) := by
  intro rest
  induction rest with
  | nil =>
    intro t h1 _ _
    rw [if_pos rfl] at h1
    refine ⟨t, rfl, ?_, rfl, ?_, fun h => h, fun h => h⟩
    · intro u
      by_cases hu : u = uid
      · subst hu; simp [h1]
      · simp [hu]
    · intro c; simp
  | cons c rest' ih =>
    intro t h1 h2 h3
    rw [if_neg (by simp)] at h1
    obtain ⟨us, hus, huid⟩ := h3 c (List.mem_cons_self c rest')
    have hnd := List.nodup_cons.1 h2
    -- the state after this iteration
    set us' := us.erase uid with hus'
    set channels' := if us' = [] then eraseKey c t.channels else setKey c us' t.channels
      with hchannels'
    set users' := if rest' = [] then eraseKey uid t.users else setKey uid rest' t.users
      with husers'
    have hcerase : (c :: rest').erase c = rest' := by simp
    have hstep : removeChannelsLoop uid (c :: rest') t =
        removeChannelsLoop uid rest' ⟨channels', users', t.listeners⟩ := by
      show removeChannelsLoop uid (c :: rest') t = _
      rw [removeChannelsLoop]
      rw [hus]
      simp only [if_pos huid, h1, if_pos (List.mem_cons_self c rest'), hcerase]
    have hchget : ∀ c', c' ≠ c → List.lookup c' channels' = List.lookup c' t.channels := by
      intro c' hc'
      rw [hchannels']
      split
      · rw [lookup_eraseKey]; simp [hc']
      · exact lookup_setKey_ne _ _ hc'
    have h1' : if rest' = [] then List.lookup uid users' = none
        else List.lookup uid users' = some rest' := by
      rw [husers']
      split
      · rw [lookup_eraseKey]; simp
      · exact lookup_setKey_self _ _ _
    have h3' : ∀ c' ∈ rest', ∃ us'', List.lookup c' channels' = some us'' ∧ uid ∈ us'' := by
      intro c' hc'
      have hne : c' ≠ c := fun h => hnd.1 (h ▸ hc')
      rw [hchget c' hne]
      exact h3 c' (List.mem_cons_of_mem c hc')
    obtain ⟨sf, hrun, hu, hl, hc, hkc, hku⟩ :=
      ih ⟨channels', users', t.listeners⟩ h1' hnd.2 h3'
    refine ⟨sf, by rw [hstep]; exact hrun, ?_, hl, ?_, ?_, ?_⟩
    · intro u
      rw [hu u]
      by_cases huu : u = uid
      · simp [huu]
      · rw [if_neg huu, if_neg huu, husers']
        split
        · rw [lookup_eraseKey]; simp [huu]
        · exact lookup_setKey_ne _ _ huu
    · intro c''
      rw [hc c'']
      by_cases hcc : c'' = c
      · subst hcc
        have hnotr : c'' ∉ rest' := hnd.1
        rw [if_neg hnotr, if_pos (List.mem_cons_self c'' rest'), hus]
        rw [hchannels']
        simp only [Option.getD_some]
        by_cases hemp : us' = []
        · rw [if_pos hemp, lookup_eraseKey, ← hus', if_pos hemp]
          simp
        · rw [if_neg hemp, lookup_setKey_self, ← hus', if_neg hemp]
      · rw [hchget c'' hcc]
        by_cases hcr : c'' ∈ rest'
        · rw [if_pos hcr, if_pos (List.mem_cons_of_mem c hcr)]
        · rw [if_neg hcr, if_neg (by simp [hcc, hcr])]
    · intro h
      apply hkc
      rw [hchannels']
      split
      · exact nodupKeys_eraseKey _ h
      · exact nodupKeys_setKey _ _ h
    · intro h
      apply hku
      rw [husers']
      split
      · exact nodupKeys_eraseKey _ h
      · exact nodupKeys_setKey _ _ h

/-- `remove_listener` keeps the registry invariant unconditionally (its
exception paths leave the state they escaped from, which is also
invariant — in particular the `KeyError` from a double removal escapes
before any mutation). -/
theorem remove_listener_preserves_Inv {s : EmitterState} (l : Listener)
    (hInv : Inv s) : Inv (remove_listener s l).1 := by
  obtain ⟨hC, hU, hL, hUL, hLU, hKC, hKU, hKL⟩ := hInv
  cases hid : l.user_id with
  | none =>
    unfold remove_listener
    rw [hid]
    exact ⟨hC, hU, hL, hUL, hLU, hKC, hKU, hKL⟩
  | some uid =>
    cases hls : List.lookup uid s.listeners with
    | none =>
      unfold remove_listener
      rw [hid]; dsimp only
      rw [hls]
      exact ⟨hC, hU, hL, hUL, hLU, hKC, hKU, hKL⟩
    | some ls =>
      by_cases hmem : l ∈ ls
      · by_cases hemp : ls.erase l = []
        · -- last listener of this user: full cleanup through the loop
          have hcs : ∃ cs, List.lookup uid s.users = some cs := by
            have := hLU _ (lookup_mem hls)
            cases h : List.lookup uid s.users with
            | none => rw [h] at this; simp at this
            | some cs => exact ⟨cs, rfl⟩
          obtain ⟨cs, hcsl⟩ := hcs
          obtain ⟨hcsne, hcsnd, hcsmem⟩ := hU _ (lookup_mem hcsl)
          have hrl : remove_listener s l =
              removeChannelsLoop uid cs
                ⟨s.channels, s.users, eraseKey uid s.listeners⟩ := by
            unfold remove_listener
            rw [hid]; dsimp only
            rw [hls]; dsimp only
            rw [if_pos hmem]
            rw [if_neg (not_not_intro hemp)]
            have hlk : List.lookup uid
                (⟨s.channels, s.users, eraseKey uid s.listeners⟩ : EmitterState).users =
                some cs := hcsl
            rw [hlk]
          obtain ⟨sf, hrun, hfu, hfl, hfc, hfkc, hfku⟩ :=
            removeChannelsLoop_spec uid cs ⟨s.channels, s.users, eraseKey uid s.listeners⟩
              (by rw [if_neg hcsne]; exact hcsl) hcsnd
              (by
                intro c hcin
                exact lookupMem_iff.1 (hcsmem c hcin))
          rw [hrl, hrun]
          have hlf : sf.listeners = eraseKey uid s.listeners := hfl
          have hKC' : NodupKeys sf.channels := hfkc hKC
          have hKU' : NodupKeys sf.users := hfku hKU
          have hKL' : NodupKeys sf.listeners := by
            rw [hlf]; exact nodupKeys_eraseKey _ hKL
          unfold Inv
          refine ⟨?_, ?_, ?_, ?_, ?_, hKC', hKU', hKL'⟩
          · rintro ⟨c, v⟩ hp
            have hv := mem_lookup hKC' hp
            rw [hfc c] at hv
            by_cases hcin : c ∈ cs
            · rw [if_pos hcin] at hv
              cases hus : List.lookup c s.channels with
              | none =>
                rw [hus] at hv
                simp at hv
              | some us =>
                rw [hus] at hv
                simp only [Option.getD_some] at hv
                by_cases he : us.erase uid = []
                · rw [if_pos he] at hv; cases hv
                · rw [if_neg he] at hv
                  cases hv
                  obtain ⟨hne, hnd, hm⟩ := hC _ (lookup_mem hus)
                  refine ⟨he, hnd.erase uid, ?_⟩
                  intro u hu
                  have hu' : u ≠ uid ∧ u ∈ us := (hnd.mem_erase_iff).1 hu
                  rcases lookupMem_iff.1 (hm u hu'.2) with ⟨w, hw, hcw⟩
                  refine lookupMem_iff.2 ⟨w, ?_, hcw⟩
                  rw [hfu u, if_neg hu'.1]
                  exact hw
            · rw [if_neg hcin] at hv
              obtain ⟨hne, hnd, hm⟩ := hC _ (lookup_mem hv)
              refine ⟨hne, hnd, ?_⟩
              intro u hu
              have huuid : u ≠ uid := by
                rintro rfl
                rcases lookupMem_iff.1 (hm u hu) with ⟨w, hw, hcw⟩
                rw [hcsl] at hw
                cases hw
                exact hcin hcw
              rcases lookupMem_iff.1 (hm u hu) with ⟨w, hw, hcw⟩
              refine lookupMem_iff.2 ⟨w, ?_, hcw⟩
              rw [hfu u, if_neg huuid]
              exact hw
          · rintro ⟨u, v⟩ hp
            have hv := mem_lookup hKU' hp
            rw [hfu u] at hv
            by_cases huuid : u = uid
            · rw [if_pos huuid] at hv; cases hv
            · rw [if_neg huuid] at hv
              obtain ⟨hne, hnd, hm⟩ := hU _ (lookup_mem hv)
              refine ⟨hne, hnd, ?_⟩
              intro c hcv
              rcases lookupMem_iff.1 (hm c hcv) with ⟨us, hus, humem⟩
              by_cases hcin : c ∈ cs
              · have hunem : u ∈ us.erase uid := List.mem_erase_of_ne huuid |>.mpr humem
                refine lookupMem_iff.2 ⟨us.erase uid, ?_, hunem⟩
                rw [hfc c, if_pos hcin, hus]
                simp only [Option.getD_some]
                rw [if_neg (List.ne_nil_of_mem hunem)]
              · refine lookupMem_iff.2 ⟨us, ?_, humem⟩
                rw [hfc c, if_neg hcin]
                exact hus
          · rintro ⟨u, v⟩ hp
            rw [hlf] at hp
            exact hL _ (mem_eraseKey.1 hp).1
          · rintro ⟨u, v⟩ hp
            have hv := mem_lookup hKU' hp
            rw [hfu u] at hv
            by_cases huuid : u = uid
            · rw [if_pos huuid] at hv; cases hv
            · rw [if_neg huuid] at hv
              rw [hlf, lookup_eraseKey, if_neg huuid]
              exact hUL _ (lookup_mem hv)
          · rintro ⟨u, v⟩ hp
            rw [hlf] at hp
            obtain ⟨hold, hne⟩ := mem_eraseKey.1 hp
            have := hLU _ hold
            cases h : List.lookup u s.users with
            | none => rw [h] at this; simp at this
            | some w =>
              rw [hfu u, if_neg hne, h]
              simp
        · -- the user keeps other listeners: only its listener set shrinks
          have hrl : remove_listener s l =
              ({ s with listeners := setKey uid (ls.erase l) s.listeners }, none) := by
            unfold remove_listener
            rw [hid]; dsimp only
            rw [hls]; dsimp only
            rw [if_pos hmem]
            rw [if_pos hemp]
          rw [hrl]
          obtain ⟨hlsne, hlsnd⟩ := hL _ (lookup_mem hls)
          have hKL' : NodupKeys (setKey uid (ls.erase l) s.listeners) :=
            nodupKeys_setKey _ _ hKL
          unfold Inv
          refine ⟨hC, hU, ?_, ?_, ?_, hKC, hKU, hKL'⟩
          · rintro ⟨u, v⟩ hp
            rcases mem_setKey.1 hp with h | ⟨hold, -⟩
            · cases h
              exact ⟨hemp, hlsnd.erase l⟩
            · exact hL _ hold
          · rintro ⟨u, v⟩ hp
            by_cases huuid : u = uid
            · subst huuid
              simp [lookup_setKey_self]
            · rw [show List.lookup (((u : Nat), v).1)
                  (setKey uid (ls.erase l) s.listeners) = List.lookup u s.listeners from
                  lookup_setKey_ne _ _ huuid]
              exact hUL _ hp
          · rintro ⟨u, v⟩ hp
            rcases mem_setKey.1 hp with h | ⟨hold, -⟩
            · cases h
              exact hLU (uid, ls) (lookup_mem hls)
            · exact hLU _ hold
      · -- double removal: `set.remove` raises before mutating
        have hrl : remove_listener s l = (s, some .keyError) := by
          unfold remove_listener
          rw [hid]; dsimp only
          rw [hls]; dsimp only
          rw [if_neg hmem]
        rw [hrl]
        exact ⟨hC, hU, hL, hUL, hLU, hKC, hKU, hKL⟩

/-- The cleanup loop never touches the `listeners` index (also on its
`KeyError` exits). -/
theorem removeChannelsLoop_listeners (uid : Nat) :
    ∀ (rest : List Nat) (t : EmitterState),
    ((removeChannelsLoop uid rest t).1).listeners = t.listeners := by
  intro rest
  induction rest with
  | nil => intro t; rfl
  | cons c rest' ih =>
    intro t
    rw [removeChannelsLoop]
    cases List.lookup c t.channels with
    | none => rfl
    | some us =>
      dsimp only
      by_cases h : uid ∈ us
      · rw [if_pos h]
        cases List.lookup uid t.users with
        | none => rfl
        | some cs =>
          dsimp only
          by_cases hc : c ∈ cs
          · rw [if_pos hc]
            exact ih _
          · rw [if_neg hc]
      · rw [if_neg h]

/-- The `listeners` index is, listener by listener, exactly the
registration status computed by `trackOp` — one call of any kind. -/
theorem trackOp_step (s : EmitterState) (op : Op) (P : Listener → Bool)
    (hwf : ListenersWF s)
    (hyp : ∀ u l, lookupMem s.listeners u l ↔ l.user_id = some u ∧ P l = true) :
    ListenersWF (applyOp s op) ∧
    ∀ u l, lookupMem (applyOp s op).listeners u l ↔
      l.user_id = some u ∧ trackOp P op l = true := by
  cases op with
  | add l' cs =>
    simp only [applyOp]
    cases hid : l'.user_id with
    | none =>
      have hs : add_listener s l' cs = s := by unfold add_listener; rw [hid]
      rw [hs]
      refine ⟨hwf, ?_⟩
      intro u l
      rw [hyp u l]
      by_cases hl : l = l'
      · subst hl
        simp [trackOp, hid]
      · simp [trackOp, hl]
    | some uid =>
      have hstate : ∃ LS : List Listener,
          (add_listener s l' cs).listeners = setKey uid LS s.listeners ∧ LS.Nodup ∧
          (∀ x, x ∈ LS ↔ x = l' ∨ lookupMem s.listeners uid x) := by
        cases h : List.lookup uid s.listeners with
        | none =>
          refine ⟨[l'], ?_, by simp, ?_⟩
          · unfold add_listener
            rw [hid]; dsimp only
            rw [h]
          · intro x
            unfold lookupMem
            rw [h]
            simp
        | some ls =>
          refine ⟨ls.insert l', ?_, (hwf _ (lookup_mem h)).insert, ?_⟩
          · unfold add_listener
            rw [hid]; dsimp only
            rw [h]
          · intro x
            unfold lookupMem
            rw [h]
            simp [List.mem_insert_iff]
      obtain ⟨LS, hst, hLSnd, hLSmem⟩ := hstate
      constructor
      · intro p hp
        rw [hst] at hp
        rcases mem_setKey.1 hp with h | ⟨hold, -⟩
        · cases h; exact hLSnd
        · exact hwf _ hold
      · intro u l
        unfold lookupMem
        rw [hst]
        by_cases hu : u = uid
        · subst hu
          rw [lookup_setKey_self]
          show l ∈ LS ↔ _
          rw [hLSmem l]
          by_cases hl : l = l'
          · subst hl
            simp [trackOp, hid]
          · rw [hyp u l]
            simp [trackOp, hl]
        · rw [lookup_setKey_ne _ _ hu]
          have hyp' := hyp u l
          unfold lookupMem at hyp'
          rw [hyp']
          by_cases hl : l = l'
          · subst hl
            rw [hid]
            simp only [trackOp, if_pos rfl]
            constructor
            · rintro ⟨h1, -⟩
              exact absurd (Option.some.inj h1) (fun h => hu h.symm)
            · rintro ⟨h1, -⟩
              exact absurd (Option.some.inj h1) (fun h => hu h.symm)
          · simp [trackOp, hl]
  | remove l' =>
    simp only [applyOp]
    cases hid : l'.user_id with
    | none =>
      have hs : (remove_listener s l').1 = s := by unfold remove_listener; rw [hid]
      rw [hs]
      refine ⟨hwf, ?_⟩
      intro u l
      rw [hyp u l]
      by_cases hl : l = l'
      · subst hl
        simp [trackOp, hid]
      · simp [trackOp, hl]
    | some uid =>
      cases hls : List.lookup uid s.listeners with
      | none =>
        have hs : (remove_listener s l').1 = s := by
          unfold remove_listener
          rw [hid]; dsimp only
          rw [hls]
        rw [hs]
        refine ⟨hwf, ?_⟩
        intro u l
        rw [hyp u l]
        by_cases hl : l = l'
        · subst hl
          simp only [trackOp, if_pos rfl]
          constructor
          · rintro ⟨h1, h2⟩
            exfalso
            rw [hid] at h1
            cases h1
            have := (hyp uid l).2 ⟨hid, h2⟩
            unfold lookupMem at this
            rw [hls] at this
            simp at this
          · rintro ⟨-, h2⟩
            cases h2
        · simp [trackOp, hl]
      | some ls =>
        by_cases hmem : l' ∈ ls
        · by_cases hemp : ls.erase l' = []
          · -- full cleanup; listeners entry is deleted before the loop runs
            have hs : (remove_listener s l').1.listeners = eraseKey uid s.listeners := by
              unfold remove_listener
              rw [hid]; dsimp only
              rw [hls]; dsimp only
              rw [if_pos hmem]
              rw [if_neg (not_not_intro hemp)]
              cases List.lookup uid
                  (⟨s.channels, s.users, eraseKey uid s.listeners⟩ : EmitterState).users with
              | none => rfl
              | some cs => exact removeChannelsLoop_listeners uid cs _
            have hsingle : ls = [l'] := by
              cases ls with
              | nil => cases hmem
              | cons x rest =>
                by_cases hx : x = l'
                · subst hx
                  rw [List.erase_cons_head] at hemp
                  rw [hemp]
                · rw [List.erase_cons_tail (by simp [hx])] at hemp
                  cases hemp
            constructor
            · intro p hp
              rw [hs] at hp
              exact hwf _ (mem_eraseKey.1 hp).1
            · intro u l
              unfold lookupMem
              rw [hs, lookup_eraseKey]
              by_cases hu : u = uid
              · rw [if_pos hu]
                subst hu
                by_cases hl : l = l'
                · subst hl
                  simp [trackOp]
                · constructor
                  · intro h; simp at h
                  · rintro ⟨h1, h2⟩
                    exfalso
                    simp only [trackOp, if_neg hl] at h2
                    have := (hyp u l).2 ⟨h1, h2⟩
                    unfold lookupMem at this
                    rw [hls, hsingle] at this
                    simp at this
                    exact hl this
              · rw [if_neg hu]
                have hyp' := hyp u l
                unfold lookupMem at hyp'
                rw [hyp']
                by_cases hl : l = l'
                · subst hl
                  rw [hid]
                  simp only [trackOp, if_pos rfl]
                  constructor
                  · rintro ⟨h1, -⟩
                    exact absurd (Option.some.inj h1) (fun h => hu h.symm)
                  · rintro ⟨-, h2⟩
                    cases h2
                · simp [trackOp, hl]
          · -- the user keeps other listeners
            have hs : (remove_listener s l').1.listeners =
                setKey uid (ls.erase l') s.listeners := by
              unfold remove_listener
              rw [hid]; dsimp only
              rw [hls]; dsimp only
              rw [if_pos hmem]
              rw [if_pos hemp]
            have hnd : ls.Nodup := hwf _ (lookup_mem hls)
            constructor
            · intro p hp
              rw [hs] at hp
              rcases mem_setKey.1 hp with h | ⟨hold, -⟩
              · cases h; exact hnd.erase l'
              · exact hwf _ hold
            · intro u l
              unfold lookupMem
              rw [hs]
              by_cases hu : u = uid
              · subst hu
                rw [lookup_setKey_self]
                show l ∈ ls.erase l' ↔ _
                rw [hnd.mem_erase_iff]
                by_cases hl : l = l'
                · subst hl
                  simp [trackOp]
                · have hyp' := hyp u l
                  unfold lookupMem at hyp'
                  rw [hls] at hyp'
                  simp only [Option.getD_some] at hyp'
                  rw [show (l ∈ ls) ↔ _ from hyp']
                  simp [trackOp, hl]
              · rw [lookup_setKey_ne _ _ hu]
                have hyp' := hyp u l
                unfold lookupMem at hyp'
                rw [hyp']
                by_cases hl : l = l'
                · subst hl
                  rw [hid]
                  simp only [trackOp, if_pos rfl]
                  constructor
                  · rintro ⟨h1, -⟩
                    exact absurd (Option.some.inj h1) (fun h => hu h.symm)
                  · rintro ⟨-, h2⟩
                    cases h2
                · simp [trackOp, hl]
        · -- double removal path: state unchanged
          have hs : (remove_listener s l').1 = s := by
            unfold remove_listener
            rw [hid]; dsimp only
            rw [hls]; dsimp only
            rw [if_neg hmem]
          rw [hs]
          refine ⟨hwf, ?_⟩
          intro u l
          rw [hyp u l]
          by_cases hl : l = l'
          · subst hl
            simp only [trackOp, if_pos rfl]
            constructor
            · rintro ⟨h1, h2⟩
              exfalso
              rw [hid] at h1
              cases h1
              have := (hyp uid l).2 ⟨hid, h2⟩
              unfold lookupMem at this
              rw [hls] at this
              exact hmem (by simpa using this)
            · rintro ⟨-, h2⟩
              cases h2
          · simp [trackOp, hl]

/-- The invariant holds along every trace whose calls respect their side
conditions. -/
theorem goodTrace_inv : ∀ (ops : List Op) (s : EmitterState),
    Inv s → GoodTrace s ops → Inv (runOps s ops) := by
  intro ops
  induction ops with
  | nil => intro s h _; exact h
  | cons op rest ih =>
    intro s h hg
    obtain ⟨hside, hrest⟩ := hg
    refine ih _ ?_ hrest
    cases op with
    | add l cs =>
      obtain ⟨hne, hsnap⟩ := hside
      exact add_listener_preserves_Inv h hne hsnap
    | remove l => exact remove_listener_preserves_Inv l h

/-- The `listeners` index along any trace (no side conditions needed). -/
theorem trackOps_run : ∀ (ops : List Op) (s : EmitterState) (P : Listener → Bool),
    ListenersWF s →
    (∀ u l, lookupMem s.listeners u l ↔ l.user_id = some u ∧ P l = true) →
    ListenersWF (runOps s ops) ∧
    ∀ u l, lookupMem (runOps s ops).listeners u l ↔
      l.user_id = some u ∧ trackOps P ops l = true := by
  intro ops
  induction ops with
  | nil => intro s P hwf hyp; exact ⟨hwf, hyp⟩
  | cons op rest ih =>
    intro s P hwf hyp
    obtain ⟨hwf', hyp'⟩ := trackOp_step s op P hwf hyp
    exact ih (applyOp s op) (trackOp P op) hwf' hyp'

theorem inv_mem_iff {s : EmitterState} (h : Inv s) :
    ∀ u c, lookupMem s.channels c u ↔ lookupMem s.users u c := by
  obtain ⟨hC, hU, -, -, -, -, -, -⟩ := h
  intro u c
  constructor
  · intro hm
    rcases lookupMem_iff.1 hm with ⟨v, hv, hu⟩
    exact (hC _ (lookup_mem hv)).2.2 u hu
  · intro hm
    rcases lookupMem_iff.1 hm with ⟨v, hv, hc⟩
    exact (hU _ (lookup_mem hv)).2.2 c hc

theorem int_lor_coe (x y : Nat) : Int.lor (x : Int) (y : Int) = ((x ||| y : Nat) : Int) := rfl

theorem lor_disjoint (i a b : Nat) (h : b < 2 ^ i) : (2 ^ i * a) ||| b = 2 ^ i * a + b := by
  apply Nat.eq_of_testBit_eq
  intro j
  rw [Nat.testBit_or, Nat.testBit_mul_pow_two_add a h]
  have hmul : (2 ^ i * a).testBit j = if j < i then false else a.testBit (j - i) := by
    simpa using Nat.testBit_mul_pow_two_add a (show (0:Nat) < 2 ^ i by positivity) j
  rw [hmul]
  by_cases hj : j < i
  · simp only [if_pos hj, Bool.false_or]
  · simp only [if_neg hj]
    have hb : b.testBit j = false :=
      Nat.testBit_lt_two_pow
        (lt_of_lt_of_le h (Nat.pow_le_pow_right (by norm_num) (le_of_not_lt hj)))
    rw [hb, Bool.or_false]

theorem snowflake_compose_eq (epochOffset t : Int) (dc w seq : Nat)
    (ht : epochOffset ≤ t) (hdc : dc < 32) (hw : w < 32) (hs : seq < 4096) :
    snowflake_compose epochOffset t dc w seq =
      (((t - epochOffset).toNat * 2 ^ 22 + dc * 2 ^ 17 + w * 2 ^ 12 + seq : Nat) : Int) := by
  unfold snowflake_compose
  have hA : t - epochOffset = ((t - epochOffset).toNat : Int) :=
    (Int.toNat_of_nonneg (sub_nonneg.2 ht)).symm
  rw [hA]
  set A := (t - epochOffset).toNat with hAdef
  rw [show (TIMESTAMP_SHIFT : Int) = ((22 : Nat) : Int) from rfl,
      show (DATACENTER_SHIFT : Int) = ((17 : Nat) : Int) from rfl,
      show (WORKER_SHIFT : Int) = ((12 : Nat) : Int) from rfl,
      Int.shiftLeft_coe_nat, Int.shiftLeft_coe_nat, Int.shiftLeft_coe_nat,
      int_lor_coe, int_lor_coe, int_lor_coe]
  congr 1
  have hb1 : dc * 2 ^ 17 < 2 ^ 22 := by norm_num; omega
  have hb2 : w * 2 ^ 12 < 2 ^ 17 := by norm_num; omega
  have e1 : A <<< 22 ||| dc <<< 17 = 2 ^ 22 * A + dc * 2 ^ 17 := by
    rw [Nat.shiftLeft_eq, Nat.shiftLeft_eq, Nat.mul_comm A (2 ^ 22)]
    exact lor_disjoint 22 A _ hb1
  rw [e1, Nat.shiftLeft_eq]
  have e2 : 2 ^ 22 * A + dc * 2 ^ 17 = 2 ^ 17 * (2 ^ 5 * A + dc) := by ring
  rw [e2, lor_disjoint 17 _ _ hb2]
  have e3 : 2 ^ 17 * (2 ^ 5 * A + dc) + w * 2 ^ 12 = 2 ^ 12 * (2 ^ 10 * A + 2 ^ 5 * dc + w) := by
    ring
  rw [e3, lor_disjoint 12 _ _ (by omega)]
  simp only [Int.toNat_natCast]
  ring

theorem sequence_mask_toNat : SEQUENCE_MASK.toNat = 4095 := by decide


theorem til_next_ms_spec (last : Int) :
    ∀ (clock : List Nat) {t2 : Nat} {rest2 : List Nat},
    til_next_ms last clock = some (t2, rest2) →
    last < (t2 : Int) ∧ t2 ∈ clock ∧ rest2.Sublist clock := by
  intro clock
  induction clock with
  | nil => intro t2 rest2 h; simp [til_next_ms] at h
  | cons t rest ih =>
    intro t2 rest2 h
    rw [til_next_ms] at h
    by_cases hle : (t : Int) ≤ last
    · rw [if_pos hle] at h
      obtain ⟨h1, h2, h3⟩ := ih h
      exact ⟨h1, List.mem_cons_of_mem _ h2, h3.trans (List.sublist_cons_self _ _)⟩
    · rw [if_neg hle] at h
      cases h
      exact ⟨lt_of_not_ge hle, List.mem_cons_self _ _, List.sublist_cons_self _ _⟩

theorem til_next_ms_replicate (last : Int) (t : Nat) (hle : (t : Int) ≤ last) :
    ∀ m, til_next_ms last (List.replicate m t) = none := by
  intro m
  induction m with
  | zero => rfl
  | succ m ih =>
    rw [List.replicate_succ, til_next_ms, if_pos hle]
    exact ih

/-- What a successful `gen_id` call guarantees. -/
theorem gen_id_ok_spec (off : Int) (g : SnowflakeGenerator) (clock : List Nat)
    (hwf : GenWF off g) (hclock : ∀ t ∈ clock, off ≤ (t : Int)) :
    ∀ {i : Int} {g2 : SnowflakeGenerator} {clock2 : List Nat},
    gen_id off g clock = (.ok i, g2, clock2) →
    GenWF off g2 ∧ g2.worker_id = g.worker_id ∧ g2.datacenter_id = g.datacenter_id ∧
    (∃ t : Nat, g2.last_timestamp = (t : Int) ∧ off ≤ (t : Int)) ∧
    i = stateId off g2 ∧
    (g.last_timestamp < g2.last_timestamp ∨
      (g.last_timestamp = g2.last_timestamp ∧ g.sequence < g2.sequence)) ∧
    (∀ t ∈ clock2, off ≤ (t : Int)) := by
  obtain ⟨hw, hdc, hs, hlast⟩ := hwf
  intro i g2 clock2 h
  cases clock with
  | nil => simp [gen_id] at h
  | cons t rest =>
    have hofft : off ≤ (t : Int) := hclock t (List.mem_cons_self _ _)
    have hrest : ∀ t0 ∈ rest, off ≤ (t0 : Int) :=
      fun t0 ht0 => hclock t0 (List.mem_cons_of_mem _ ht0)
    rw [gen_id] at h
    by_cases hlt : (t : Int) < g.last_timestamp
    · rw [if_pos hlt] at h; cases h
    rw [if_neg hlt] at h
    by_cases heq : g.last_timestamp = (t : Int)
    · rw [if_pos heq] at h
      have hseq : ((g.sequence : Int) + 1).toNat &&& SEQUENCE_MASK.toNat =
          (g.sequence + 1) % 4096 := by
        rw [sequence_mask_toNat]
        rw [show ((g.sequence : Int) + 1).toNat = g.sequence + 1 by omega]
        rw [show (4095 : Nat) = 2 ^ 12 - 1 by norm_num, Nat.and_pow_two_sub_one_eq_mod]
      by_cases hwrap : ((g.sequence : Int) + 1).toNat &&& SEQUENCE_MASK.toNat = 0
      · rw [if_pos hwrap] at h
        cases htil : til_next_ms g.last_timestamp rest with
        | none => rw [htil] at h; cases h
        | some p =>
          obtain ⟨t2, rest2⟩ := p
          rw [htil] at h
          cases h
          obtain ⟨hgt, hmem, hsub⟩ := til_next_ms_spec g.last_timestamp rest htil
          refine ⟨⟨hw, hdc, by norm_num, Or.inr ⟨t2, rfl, hrest t2 hmem⟩⟩,
            rfl, rfl, ⟨t2, rfl, hrest t2 hmem⟩, rfl, Or.inl hgt,
            fun t0 ht0 => hrest t0 (hsub.subset ht0)⟩
      · rw [if_neg hwrap] at h
        cases h
        have hs2 : g.sequence + 1 < 4096 := by
          rw [hseq] at hwrap
          rcases Nat.lt_or_ge (g.sequence + 1) 4096 with h1 | h1
          · exact h1
          · exfalso
            have he : g.sequence + 1 = 4096 := by omega
            rw [he] at hwrap
            simp at hwrap
        have hseq2 : ((g.sequence : Int) + 1).toNat &&& SEQUENCE_MASK.toNat =
            g.sequence + 1 := by
          rw [hseq, Nat.mod_eq_of_lt hs2]
        refine ⟨⟨hw, hdc, by dsimp only; rw [hseq2]; omega, Or.inr ⟨t, rfl, hofft⟩⟩,
          rfl, rfl, ⟨t, rfl, hofft⟩, rfl, Or.inr ⟨heq, by dsimp only; rw [hseq2]; omega⟩, hrest⟩
    · rw [if_neg heq] at h
      cases h
      have hgtlast : g.last_timestamp < (t : Int) := lt_of_le_of_ne (not_lt.1 hlt) heq
      exact ⟨⟨hw, hdc, by norm_num, Or.inr ⟨t, rfl, hofft⟩⟩,
        rfl, rfl, ⟨t, rfl, hofft⟩, rfl, Or.inl hgtlast, hrest⟩

theorem stateId_mono (off : Int) {g1 g2 : SnowflakeGenerator}
    (hwf1 : GenWF off g1) (hwf2 : GenWF off g2)
    (hw : g2.worker_id = g1.worker_id) (hdc : g2.datacenter_id = g1.datacenter_id)
    (ht1 : ∃ t : Nat, g1.last_timestamp = (t : Int) ∧ off ≤ (t : Int))
    (ht2 : ∃ t : Nat, g2.last_timestamp = (t : Int) ∧ off ≤ (t : Int))
    (hlex : g1.last_timestamp < g2.last_timestamp ∨
      (g1.last_timestamp = g2.last_timestamp ∧ g1.sequence < g2.sequence)) :
    stateId off g1 < stateId off g2 := by
  obtain ⟨t1, he1, ho1⟩ := ht1
  obtain ⟨t2, he2, ho2⟩ := ht2
  unfold stateId
  rw [he1, he2, hw, hdc,
    snowflake_compose_eq off (t1 : Int) _ _ _ ho1 hwf1.2.1 hwf1.1 hwf1.2.2.1,
    snowflake_compose_eq off (t2 : Int) _ _ _ ho2 hwf1.2.1 hwf1.1 hwf2.2.2.1]
  rw [Int.ofNat_lt]
  set A1 := ((t1 : Int) - off).toNat with hA1
  set A2 := ((t2 : Int) - off).toNat with hA2
  have hs1 : g1.sequence < 4096 := hwf1.2.2.1
  have hs2 : g2.sequence < 4096 := hwf2.2.2.1
  have hdcb : g1.datacenter_id < 32 := hwf1.2.1
  have hwb : g1.worker_id < 32 := hwf1.1
  rcases hlex with hlt | ⟨heq, hslt⟩
  · have hA : A1 < A2 := by
      rw [he1, he2] at hlt
      have : (t1 : Int) - off < (t2 : Int) - off := by omega
      omega
    have e22 : (2 : Nat) ^ 22 = 4194304 := by norm_num
    have e17 : (2 : Nat) ^ 17 = 131072 := by norm_num
    have e12 : (2 : Nat) ^ 12 = 4096 := by norm_num
    rw [e22, e17, e12]
    omega
  · have hA : A1 = A2 := by
      rw [he1, he2] at heq
      omega
    have e22 : (2 : Nat) ^ 22 = 4194304 := by norm_num
    have e17 : (2 : Nat) ^ 17 = 131072 := by norm_num
    have e12 : (2 : Nat) ^ 12 = 4096 := by norm_num
    rw [e22, e17, e12]
    omega


/-- On a `clockBackwards` exception the state is untouched and the rest
of the clock is a subset; on a `diverges` exit the clock oracle is spent. -/
theorem gen_id_error_spec (off : Int) (g : SnowflakeGenerator) (clock : List Nat) :
    ∀ {e : GenError} {g2 : SnowflakeGenerator} {clock2 : List Nat},
    gen_id off g clock = (.error e, g2, clock2) →
    (∀ t ∈ clock2, t ∈ clock) ∧ (e = .clockBackwards → g2 = g) ∧
    (e = .diverges → clock2 = []) := by
  intro e g2 clock2 h
  cases clock with
  | nil =>
    rw [gen_id] at h
    cases h
    exact ⟨by simp, fun _ => rfl, fun _ => rfl⟩
  | cons t rest =>
    rw [gen_id] at h
    by_cases hlt : (t : Int) < g.last_timestamp
    · rw [if_pos hlt] at h
      cases h
      exact ⟨fun t0 ht0 => List.mem_cons_of_mem _ ht0, fun _ => rfl, by rintro ⟨⟩⟩
    rw [if_neg hlt] at h
    by_cases heq : g.last_timestamp = (t : Int)
    · rw [if_pos heq] at h
      by_cases hwrap : ((g.sequence : Int) + 1).toNat &&& SEQUENCE_MASK.toNat = 0
      · rw [if_pos hwrap] at h
        cases htil : til_next_ms g.last_timestamp rest with
        | none =>
          rw [htil] at h
          cases h
          exact ⟨by simp, by rintro ⟨⟩, fun _ => rfl⟩
        | some p =>
          obtain ⟨t2, rest2⟩ := p
          rw [htil] at h
          cases h
      · rw [if_neg hwrap] at h
        cases h
    · rw [if_neg heq] at h
      cases h

theorem runGen_nil_clock (off : Int) : ∀ (n : Nat) (g : SnowflakeGenerator),
    (runGen off n g []).1 = [] := by
  intro n g
  cases n with
  | zero => rfl
  | succ n => rw [runGen, gen_id]

/-- Every run produces a strictly increasing list of IDs, each exceeding
the ID value of the starting state. -/
theorem runGen_ids_spec (off : Int) :
    ∀ (n : Nat) (g : SnowflakeGenerator) (clock : List Nat),
    GenWF off g → (∀ t ∈ clock, off ≤ (t : Int)) →
    List.Chain' (· < ·) (runGen off n g clock).1 ∧
    (∀ i ∈ (runGen off n g clock).1,
      (∃ t : Nat, g.last_timestamp = (t : Int) ∧ off ≤ (t : Int)) →
        stateId off g < i) := by
  intro n
  induction n with
  | zero =>
    intro g clock _ _
    exact ⟨List.chain'_nil, by intro i hi; simp [runGen] at hi⟩
  | succ n ih =>
    intro g clock hwf hclock
    rw [runGen]
    cases hgen : gen_id off g clock with
    | mk r p =>
      obtain ⟨g2, clock2⟩ := p
      cases r with
      | error e =>
        cases e with
        | clockBackwards =>
          dsimp only
          obtain ⟨hsub, hst, -⟩ := gen_id_error_spec off g clock hgen
          rw [hst rfl]
          exact ih g clock2 hwf (fun t0 ht0 => hclock t0 (hsub t0 ht0))
        | diverges =>
          dsimp only
          exact ⟨List.chain'_nil, by intro i hi; simp at hi⟩
      | ok i =>
        dsimp only
        obtain ⟨hwf2, hw, hdc, ht2, hi, hlex, hclock2⟩ :=
          gen_id_ok_spec off g clock hwf hclock hgen
        obtain ⟨hch, hbnd⟩ := ih g2 clock2 hwf2 hclock2
        constructor
        · refine List.chain'_cons'.mpr ⟨?_, hch⟩
          intro b hb
          have hbmem : b ∈ (runGen off n g2 clock2).1 := by
            cases hh : (runGen off n g2 clock2).1 with
            | nil => rw [hh] at hb; cases hb
            | cons x xs =>
              rw [hh] at hb
              simp at hb
              simp [hh, hb]
          rw [hi]
          exact hbnd b hbmem ht2
        · intro j hj ht1
          have hlt1 : stateId off g < stateId off g2 :=
            stateId_mono off hwf hwf2 hw hdc ht1 ht2 hlex
          rcases List.mem_cons.1 hj with rfl | hj2
          · rw [hi]; exact hlt1
          · exact lt_trans hlt1 (hbnd j hj2 ht2)

/-- A burst of `k` calls from a state already at timestamp `t` with
sequence `s`, under a clock stuck at `t`: produces the IDs with
sequences `s+1 … s+k` and never wraps while `s + k < 4096`. -/
theorem runGen_burst (off : Int) (w dc t : Nat) :
    ∀ (k s m : Nat), s + k < 4096 → k ≤ m →
    runGen off k ⟨w, dc, s, (t : Int)⟩ (List.replicate m t) =
      ((List.range k).map (fun j => snowflake_compose off (t : Int) dc w (s + 1 + j)),
       ⟨w, dc, s + k, (t : Int)⟩, List.replicate (m - k) t) := by
  intro k
  induction k with
  | zero =>
    intro s m _ _
    simp [runGen]
  | succ k ih =>
    intro s m hsk hkm
    cases m with
    | zero => omega
    | succ m2 =>
      rw [List.replicate_succ]
      have hseq2 : ((s : Int) + 1).toNat &&& SEQUENCE_MASK.toNat = s + 1 := by
        rw [sequence_mask_toNat, show ((s : Int) + 1).toNat = s + 1 by omega,
            show (4095 : Nat) = 2 ^ 12 - 1 by norm_num, Nat.and_pow_two_sub_one_eq_mod,
            Nat.mod_eq_of_lt (by omega)]
      have hgen : gen_id off ⟨w, dc, s, (t : Int)⟩ (t :: List.replicate m2 t) =
          (.ok (snowflake_compose off (t : Int) dc w (s + 1)),
           ⟨w, dc, s + 1, (t : Int)⟩, List.replicate m2 t) := by
        rw [gen_id]
        rw [if_neg (lt_irrefl (t : Int))]
        rw [if_pos rfl]
        rw [if_neg (show ¬(((s : Int) + 1).toNat &&& SEQUENCE_MASK.toNat = 0) from by
          rw [hseq2]; omega)]
        rw [hseq2]
      rw [runGen, hgen]
      dsimp only
      rw [ih (s + 1) m2 (by omega) (by omega)]
      have hstate : s + (k + 1) = s + 1 + k := by omega
      have hm : m2 + 1 - (k + 1) = m2 - k := by omega
      have hlist : (List.range (k + 1)).map
          (fun j => snowflake_compose off (t : Int) dc w (s + 1 + j)) =
          snowflake_compose off (t : Int) dc w (s + 1) ::
            (List.range k).map (fun j => snowflake_compose off (t : Int) dc w (s + 1 + 1 + j)) := by
        rw [List.range_succ_eq_map, List.map_cons, List.map_map]
        refine congrArg₂ _ rfl (List.map_congr_left ?_)
        intro j _
        simp only [Function.comp]
        congr 1
        omega
      rw [hlist, hstate, hm]

/-- A fresh generator under a clock stuck at `t`: the first `n ≤ 4096`
calls return the IDs with sequences `0 … n-1` at timestamp `t`. -/
theorem runGen_fresh (off : Int) (w dc t : Nat) (n m : Nat)
    (h1 : 1 ≤ n) (h2 : n ≤ 4096) (h3 : n ≤ m) :
    runGen off n ⟨w, dc, 0, -1⟩ (List.replicate m t) =
      ((List.range n).map (fun j => snowflake_compose off (t : Int) dc w j),
       ⟨w, dc, n - 1, (t : Int)⟩, List.replicate (m - n) t) := by
  obtain ⟨k, rfl⟩ : ∃ k, n = k + 1 := ⟨n - 1, by omega⟩
  obtain ⟨m2, rfl⟩ : ∃ m2, m = m2 + 1 := ⟨m - 1, by omega⟩
  rw [List.replicate_succ]
  have hgen : gen_id off ⟨w, dc, 0, -1⟩ (t :: List.replicate m2 t) =
      (.ok (snowflake_compose off (t : Int) dc w 0),
       ⟨w, dc, 0, (t : Int)⟩, List.replicate m2 t) := by
    rw [gen_id]
    rw [if_neg (show ¬((t : Int) < (-1 : Int)) from by omega)]
    rw [if_neg (show ¬((-1 : Int) = (t : Int)) from by omega)]
  rw [runGen, hgen]
  dsimp only
  rw [runGen_burst off w dc t k 0 m2 (by omega) (by omega)]
  have hlist : (List.range (k + 1)).map
      (fun j => snowflake_compose off (t : Int) dc w j) =
      snowflake_compose off (t : Int) dc w 0 ::
        (List.range k).map (fun j => snowflake_compose off (t : Int) dc w (0 + 1 + j)) := by
    rw [List.range_succ_eq_map, List.map_cons, List.map_map]
    refine congrArg₂ _ rfl (List.map_congr_left ?_)
    intro j _
    simp only [Function.comp]
    congr 1
    omega
  rw [hlist]
  have hk : k + 1 - 1 = 0 + k := by omega
  have hm : m2 + 1 - (k + 1) = m2 - k := by omega
  rw [hk, hm]

/-- The call after a full-sequence burst busy-waits forever while the
clock still reads the same millisecond: no ID is returned. -/
theorem runGen_wrap_diverges (off : Int) (w dc t : Nat) (k m : Nat) :
    (runGen off (k + 1) ⟨w, dc, 4095, (t : Int)⟩ (List.replicate m t)).1 = [] := by
  cases m with
  | zero =>
    rw [List.replicate_zero, runGen, gen_id]
  | succ m2 =>
    rw [List.replicate_succ, runGen]
    have hgen : gen_id off ⟨w, dc, 4095, (t : Int)⟩ (t :: List.replicate m2 t) =
        (.error .diverges, ⟨w, dc, 0, (t : Int)⟩, []) := by
      rw [gen_id]
      rw [if_neg (lt_irrefl (t : Int))]
      rw [if_pos rfl]
      have hwrap : (((4095 : Nat) : Int) + 1).toNat &&& SEQUENCE_MASK.toNat = 0 := by
        rw [sequence_mask_toNat]
        decide
      rw [if_pos hwrap]
      rw [til_next_ms_replicate (t : Int) t le_rfl m2]
    rw [hgen]

/-- Splitting a run. -/
theorem runGen_append (off : Int) :
    ∀ (n1 n2 : Nat) (g : SnowflakeGenerator) (clock : List Nat),
    (runGen off (n1 + n2) g clock).1 =
      (runGen off n1 g clock).1 ++
        (runGen off n2 (runGen off n1 g clock).2.1 (runGen off n1 g clock).2.2).1 := by
  intro n1
  induction n1 with
  | zero =>
    intro n2 g clock
    simp [runGen]
  | succ n1 ih =>
    intro n2 g clock
    have hn : n1 + 1 + n2 = (n1 + n2) + 1 := by omega
    rw [hn, runGen, runGen]
    cases hgen : gen_id off g clock with
    | mk r p =>
      obtain ⟨g2, clock2⟩ := p
      cases r with
      | ok i =>
        dsimp only
        rw [ih n2 g2 clock2]
        rfl
      | error e =>
        cases e with
        | clockBackwards =>
          dsimp only
          exact ih n2 g2 clock2
        | diverges =>
          dsimp only
          obtain ⟨-, -, hnil⟩ := gen_id_error_spec off g clock hgen
          rw [hnil rfl]
          rw [show (runGen off n2 g2 []).1 = [] from runGen_nil_clock off n2 g2]
          rfl

/-- Within one timestamp, the ID is the base ID (sequence 0) plus the
sequence number: successive same-millisecond IDs differ exactly in the
12-bit sequence field. -/
theorem snowflake_compose_seq_add (off t : Int) (dc w seq : Nat)
    (ht : off ≤ t) (hdc : dc < 32) (hw : w < 32) (hs : seq < 4096) :
    snowflake_compose off t dc w seq = snowflake_compose off t dc w 0 + seq := by
  rw [snowflake_compose_eq off t dc w seq ht hdc hw hs,
      snowflake_compose_eq off t dc w 0 ht hdc hw (by norm_num)]
  push_cast
  ring

/-- A same-millisecond run that asks for more than 4096 IDs stalls at the
4097th call and yields exactly 4096 IDs. -/
theorem runGen_overflow_length (off : Int) (w dc t n m : Nat)
    (hn : 4097 ≤ n) (hm : n ≤ m) :
    (runGen off n ⟨w, dc, 0, -1⟩ (List.replicate m t)).1.length = 4096 := by
  rw [show n = 4096 + (n - 4096) from by omega]
  rw [runGen_append]
  rw [runGen_fresh off w dc t 4096 m (by omega) (by omega) (by omega)]
  dsimp only
  obtain ⟨k, hk⟩ : ∃ k, n - 4096 = k + 1 := ⟨n - 4097, by omega⟩
  rw [hk]
  rw [runGen_wrap_diverges off w dc t k (m - 4096)]
  simp

/-- **C4 (amended)** — same-millisecond bursts and global uniqueness. -/
theorem c4_amended (epochOffset : Int) :
    (∀ (w dc t n m : Nat), w < 32 → dc < 32 → epochOffset ≤ (t : Int) →
      1 ≤ n → n ≤ 4096 → n ≤ m →
      (runGen epochOffset n ⟨w, dc, 0, -1⟩ (List.replicate m t)).1 =
        (List.range n).map
          (fun j : Nat => snowflake_compose epochOffset (t : Int) dc w 0 + (j : Int)))
    ∧ (∀ (w dc t n m : Nat), 4097 ≤ n → n ≤ m →
      (runGen epochOffset n ⟨w, dc, 0, -1⟩ (List.replicate m t)).1.length = 4096)
    ∧ (∀ (n : Nat) (g : SnowflakeGenerator) (clock : List Nat),
      GenWF epochOffset g → (∀ t ∈ clock, epochOffset ≤ (t : Int)) →
      List.Chain' (· < ·) (runGen epochOffset n g clock).1 ∧
      (runGen epochOffset n g clock).1.Nodup) := by
  refine ⟨?_, ?_, ?_⟩
  · intro w dc t n m hw hdc hofft h1 h2 h3
    rw [runGen_fresh epochOffset w dc t n m h1 h2 h3]
    dsimp only
    refine List.map_congr_left ?_
    intro j hj
    have hj2 : j < 4096 := lt_of_lt_of_le (List.mem_range.1 hj) h2
    rw [snowflake_compose_seq_add epochOffset (t : Int) dc w j hofft hdc hw hj2]
  · intro w dc t n m hn hm
    exact runGen_overflow_length epochOffset w dc t n m hn hm
  · intro n g clock hwf hclock
    obtain ⟨hch, -⟩ := runGen_ids_spec epochOffset n g clock hwf hclock
    refine ⟨hch, ?_⟩
    exact (List.chain'_iff_pairwise.mp hch).imp ne_of_lt

/-- **C4** (counterexample): 10,000 sequential `gen_id` calls while the
millisecond clock keeps reading the same value cannot all complete: the
sequence field wraps after 4096 IDs and `til_next_ms` then busy-waits
forever, so only 4096 IDs are ever produced. -/
theorem c4_counterexample :
    (runGen 0 10000 ⟨0, 0, 0, -1⟩ (List.replicate 20000 0)).1.length = 4096 ∧
    (runGen 0 10000 ⟨0, 0, 0, -1⟩ (List.replicate 20000 0)).1.length ≠ 10000 := by
  have h := runGen_overflow_length 0 0 0 0 10000 20000 (by norm_num) (by norm_num)
  exact ⟨h, by rw [h]; norm_num⟩

theorem c4_amended_witness :
    (runGen 0 2 ⟨0, 0, 0, -1⟩ (List.replicate 2 5)).1 =
      (List.range 2).map (fun j : Nat => snowflake_compose 0 ((5 : Nat) : Int) 0 0 0 + (j : Int)) ∧
    (runGen 0 4097 ⟨0, 0, 0, -1⟩ (List.replicate 4097 0)).1.length = 4096 ∧
    (runGen 0 3 ⟨0, 0, 0, -1⟩ [7, 7, 9]).1.Nodup :=
  ⟨(c4_amended 0).1 0 0 5 2 2 (by norm_num) (by norm_num) (by norm_num)
      (by norm_num) (by norm_num) (by norm_num),
   (c4_amended 0).2.1 0 0 0 4097 4097 (by norm_num) le_rfl,
   ((c4_amended 0).2.2 3 ⟨0, 0, 0, -1⟩ [7, 7, 9]
      ⟨by norm_num, by norm_num, by norm_num, Or.inl rfl⟩
      (by intro t _; exact Int.natCast_nonneg t)).2⟩

/-- **C2** (code bug): with a user that still has another registered
listener (multi-device), removing the same listener twice makes the
second `remove_listener` call raise `KeyError` from
`self._listeners[user_id].remove(listener)` instead of being the no-op
idempotent removal the spec requires; the registry state survives
unchanged only because the raise happens before any mutation. -/
theorem c2_double_removal_raises :
    (remove_listener
      (remove_listener
        (runOps emptyState
          [Op.add ⟨0, some 1⟩ [5], Op.add ⟨1, some 1⟩ [5]]) ⟨0, some 1⟩).1
      ⟨0, some 1⟩).2 = some .keyError ∧
    (remove_listener
      (remove_listener
        (runOps emptyState
          [Op.add ⟨0, some 1⟩ [5], Op.add ⟨1, some 1⟩ [5]]) ⟨0, some 1⟩).1
      ⟨0, some 1⟩).1 =
    (remove_listener
      (runOps emptyState
        [Op.add ⟨0, some 1⟩ [5], Op.add ⟨1, some 1⟩ [5]]) ⟨0, some 1⟩).1 := by
  constructor <;> decide

/-- **C3** (counterexample): the frame `{"op": 5}` — a well-formed
integer opcode that is neither HEARTBEAT nor IDENTIFY — is silently
ignored by `_handle` (no close with BAD_PAYLOAD, no reply at all). -/
theorem c3_counterexample :
    processMessage (some (.obj [("op", .num 5)])) (fun _ => none) =
      .handled .ignored ∧
    processMessage (some (.obj [("op", .num 5)])) (fun _ => none) ≠
      .closedBadPayload := by
  constructor <;> decide

/-- **C3** (amended): a frame whose payload is missing a required key
(`op` absent; or `d`/`token` absent on IDENTIFY) raises `KeyError`,
which `listen` catches and answers with a BAD_PAYLOAD close; a frame
with a well-formed integer opcode other than HEARTBEAT (1) and
IDENTIFY (2) is silently ignored. -/
theorem c3_amended (verify : JValue → Option Nat) :
    (∀ (fields : List (String × JValue)) (n : Int),
      List.lookup "op" fields = some (.num n) → n ≠ 1 → n ≠ 2 →
      processMessage (some (.obj fields)) verify = .handled .ignored)
    ∧ (∀ fields : List (String × JValue), List.lookup "op" fields = none →
      processMessage (some (.obj fields)) verify = .closedBadPayload)
    ∧ (∀ fields : List (String × JValue),
      List.lookup "op" fields = some (.num 2) →
      List.lookup "d" fields = none →
      processMessage (some (.obj fields)) verify = .closedBadPayload) := by
  refine ⟨?_, ?_, ?_⟩
  · intro fields n hop h1 h2
    simp [processMessage, handle, getItem, hop, h1, h2, Opcode.value,
      Bind.bind, Except.bind, Pure.pure, Except.pure]
  · intro fields hop
    simp [processMessage, handle, getItem, hop,
      Bind.bind, Except.bind, Pure.pure, Except.pure]
  · intro fields hop hd
    simp [processMessage, handle, getItem, hop, hd, Opcode.value,
      Bind.bind, Except.bind, Pure.pure, Except.pure]

/-- **C5**: when the clock oracle hands `gen_id` a reading strictly
below `_last_timestamp`, it raises `RuntimeError` (a non-retriable
failure, not an ID), and the generator state is untouched. -/
theorem c5_clock_backwards (epochOffset : Int) (g : SnowflakeGenerator)
    (t : Nat) (clock : List Nat) (h : (t : Int) < g.last_timestamp) :
    gen_id epochOffset g (t :: clock) = (.error .clockBackwards, g, clock) := by
  rw [gen_id, if_pos h]

theorem c5_clock_backwards_witness :
    ((5 : Nat) : Int) < (10 : Int) ∧
    gen_id 0 ⟨0, 0, 7, (10 : Int)⟩ [5] = (.error .clockBackwards, ⟨0, 0, 7, (10 : Int)⟩, []) :=
  ⟨by norm_num, c5_clock_backwards 0 ⟨0, 0, 7, (10 : Int)⟩ 5 [] (by norm_num)⟩

/-- **C6**: `notify` serializes `{"op": …}` — omitting `"d"` exactly when
no data is given — and returns `true` iff the websocket was not already
closed by the remote side; `event_notify` serializes
`{"op": DISPATCH, "d": payload, "t": name}` under the same
false-on-closed, never-raising contract. -/
theorem c6_notify_contract (ws : WSState) (op : Opcode) (data : Option JValue)
    (name : String) (payload : JValue) :
    (wsNotify ws op data = true ↔ ws.closed = false)
    ∧ (wsEventNotify ws name payload = true ↔ ws.closed = false)
    ∧ getItem (notifyEnvelope op data) "op" = .ok (.num op.value)
    ∧ (data = none → getItem (notifyEnvelope op data) "d" = .error .keyError)
    ∧ (∀ d, data = some d → getItem (notifyEnvelope op data) "d" = .ok d)
    ∧ getItem (eventEnvelope name payload) "op" = .ok (.num Opcode.DISPATCH.value)
    ∧ getItem (eventEnvelope name payload) "d" = .ok payload
    ∧ getItem (eventEnvelope name payload) "t" = .ok (.str name) := by
  refine ⟨?_, ?_, ?_, ?_, ?_, ?_, ?_, ?_⟩
  · unfold wsNotify send_json
    cases h : ws.closed <;> simp
  · unfold wsEventNotify send_json
    cases h : ws.closed <;> simp
  · cases data <;> simp [notifyEnvelope, getItem, List.lookup]
  · intro h
    subst h
    simp [notifyEnvelope, getItem, List.lookup]
  · intro d h
    subst h
    simp [notifyEnvelope, getItem, List.lookup]
  · simp [eventEnvelope, getItem, List.lookup]
  · simp [eventEnvelope, getItem, List.lookup]
  · simp [eventEnvelope, getItem, List.lookup]

theorem c6_notify_contract_witness :
    (wsNotify ⟨true⟩ .HELLO none = true ↔ (⟨true⟩ : WSState).closed = false) ∧
    getItem (notifyEnvelope .HELLO none) "d" = .error .keyError :=
  ⟨(c6_notify_contract ⟨true⟩ .HELLO none "x" (.num 0)).1,
   (c6_notify_contract ⟨true⟩ .HELLO none "x" (.num 0)).2.2.2.1 rfl⟩

/-- **C9**: removing one of a user's listeners while at least one other
listener of the same user remains registered changes only that user's
listener set (the listener is deleted from it); the channel → users and
user → channels indices, and every other user's listener set, are
untouched, and no exception is raised. -/
theorem c9_remove_frame_effect {s : EmitterState} {l : Listener} {uid : Nat}
    {ls : List Listener}
    (hid : l.user_id = some uid)
    (hls : List.lookup uid s.listeners = some ls)
    (hmem : l ∈ ls)
    (hother : ∃ l2 ∈ ls, l2 ≠ l) :
    remove_listener s l =
      ({ s with listeners := setKey uid (ls.erase l) s.listeners }, none)
    ∧ (remove_listener s l).1.channels = s.channels
    ∧ (remove_listener s l).1.users = s.users
    ∧ List.lookup uid (remove_listener s l).1.listeners = some (ls.erase l)
    ∧ ∀ u, u ≠ uid →
        List.lookup u (remove_listener s l).1.listeners = List.lookup u s.listeners := by
  obtain ⟨l2, hl2mem, hl2ne⟩ := hother
  have hne : ls.erase l ≠ [] :=
    List.ne_nil_of_mem (List.mem_erase_of_ne hl2ne |>.mpr hl2mem)
  have hrl : remove_listener s l =
      ({ s with listeners := setKey uid (ls.erase l) s.listeners }, none) := by
    unfold remove_listener
    rw [hid]; dsimp only
    rw [hls]; dsimp only
    rw [if_pos hmem]
    rw [if_pos hne]
  refine ⟨hrl, by rw [hrl], by rw [hrl], ?_, ?_⟩
  · rw [hrl]
    exact lookup_setKey_self _ _ _
  · intro u hu
    rw [hrl]
    exact lookup_setKey_ne _ _ hu

theorem c9_remove_frame_effect_witness :
    remove_listener (runOps emptyState
        [Op.add ⟨0, some 1⟩ [5], Op.add ⟨1, some 1⟩ [5]]) ⟨0, some 1⟩ =
      ({ runOps emptyState [Op.add ⟨0, some 1⟩ [5], Op.add ⟨1, some 1⟩ [5]] with
          listeners := setKey 1
            ([⟨1, some 1⟩, ⟨0, some 1⟩].erase (⟨0, some 1⟩ : Listener))
            (runOps emptyState
              [Op.add ⟨0, some 1⟩ [5], Op.add ⟨1, some 1⟩ [5]]).listeners }, none) :=
  (c9_remove_frame_effect (by decide)
    (by decide) (by decide) ⟨⟨1, some 1⟩, by decide, by decide⟩).1

/-- **C10**: the heartbeat watcher loop terminates only into
`await self.close()` with every argument defaulted — close code NORMAL
and cleanup on — both when it observes the websocket already closed and
when the heartbeat response error exceeds the 10% slack; while neither
happens it keeps watching. -/
theorem c10_heartbeat_close_defaults (obs : List HbObs) :
    (∀ r, check_hb ((HEARTBEAT_INTERVAL : ℚ) / 1000) obs = some r →
      r = ⟨CloseCode.NORMAL.value, true⟩)
    ∧ ((∃ o ∈ obs, o.closed = true ∨
          o.elapsed - (HEARTBEAT_INTERVAL : ℚ) / 1000 >
            ((HEARTBEAT_INTERVAL : ℚ) / 1000) / 10) →
        (check_hb ((HEARTBEAT_INTERVAL : ℚ) / 1000) obs).isSome = true) := by
  induction obs with
  | nil =>
    refine ⟨?_, ?_⟩
    · intro r hr; cases hr
    · rintro ⟨o, ho, -⟩; cases ho
  | cons o rest ih =>
    refine ⟨?_, ?_⟩
    · intro r hr
      rw [check_hb] at hr
      by_cases hc : o.closed
      · rw [if_pos hc] at hr; cases hr; rfl
      · rw [if_neg hc] at hr
        by_cases he : o.elapsed - (HEARTBEAT_INTERVAL : ℚ) / 1000 >
            ((HEARTBEAT_INTERVAL : ℚ) / 1000) / 10
        · rw [if_pos he] at hr; cases hr; rfl
        · rw [if_neg he] at hr
          exact ih.1 r hr
    · rintro ⟨o2, ho2, hcond⟩
      rw [check_hb]
      by_cases hc : o.closed
      · rw [if_pos hc]; rfl
      · rw [if_neg hc]
        by_cases he : o.elapsed - (HEARTBEAT_INTERVAL : ℚ) / 1000 >
            ((HEARTBEAT_INTERVAL : ℚ) / 1000) / 10
        · rw [if_pos he]; rfl
        · rw [if_neg he]
          refine ih.2 ⟨o2, ?_, hcond⟩
          rcases List.mem_cons.1 ho2 with rfl | h2
          · rcases hcond with h | h
            · exact absurd h hc
            · exact absurd h he
          · exact h2

theorem c10_heartbeat_close_defaults_witness :
    check_hb ((HEARTBEAT_INTERVAL : ℚ) / 1000) [⟨false, 10⟩, ⟨false, 34⟩] =
      some ⟨CloseCode.NORMAL.value, true⟩ ∧
    (check_hb ((HEARTBEAT_INTERVAL : ℚ) / 1000) [⟨true, 0⟩]).isSome = true := by
  constructor
  · have h2 := (c10_heartbeat_close_defaults [⟨false, 10⟩, ⟨false, 34⟩]).2
      ⟨⟨false, 34⟩, by norm_num, Or.inr (by norm_num [HEARTBEAT_INTERVAL])⟩
    cases hr : check_hb ((HEARTBEAT_INTERVAL : ℚ) / 1000) [⟨false, 10⟩, ⟨false, 34⟩] with
    | none => rw [hr] at h2; cases h2
    | some r =>
      have hd := (c10_heartbeat_close_defaults [⟨false, 10⟩, ⟨false, 34⟩]).1 r hr
      rw [hd]
  · exact (c10_heartbeat_close_defaults [⟨true, 0⟩]).2 ⟨⟨true, 0⟩, by norm_num, Or.inl rfl⟩
/-- The users-loop of the fan-out succeeds and calls `event_notify` on
exactly the listeners of the listed users, provided every listed user
has a listeners entry. -/
theorem fanoutUsers_spec (s : EmitterState) (fails : Listener → Bool) :
    ∀ (us : List Nat),
    (∀ u ∈ us, (List.lookup u s.listeners).isSome = true) →
    (fanoutUsers s fails us).2.2 = true ∧
    (∀ l, l ∈ (fanoutUsers s fails us).1 ↔
      ∃ u ∈ us, lookupMem s.listeners u l) := by
  intro us
  induction us with
  | nil =>
    intro _
    exact ⟨rfl, by intro l; simp [fanoutUsers]⟩
  | cons u rest ih =>
    intro h
    obtain ⟨hok, hmem⟩ := ih (fun u2 hu2 => h u2 (List.mem_cons_of_mem _ hu2))
    have hu := h u (List.mem_cons_self _ _)
    cases hls : List.lookup u s.listeners with
    | none => rw [hls] at hu; cases hu
    | some ls =>
      have hstep : fanoutUsers s fails (u :: rest) =
          (ls ++ (fanoutUsers s fails rest).1,
           ls.filter fails ++ (fanoutUsers s fails rest).2.1,
           (fanoutUsers s fails rest).2.2) := by
        rw [fanoutUsers, hls]
      rw [hstep]
      refine ⟨hok, ?_⟩
      intro l
      simp only [List.mem_append, List.mem_cons]
      rw [hmem l]
      constructor
      · rintro (hin | ⟨u2, hu2, hm⟩)
        · exact ⟨u, Or.inl rfl, by unfold lookupMem; rw [hls]; exact hin⟩
        · exact ⟨u2, Or.inr hu2, hm⟩
      · rintro ⟨u2, rfl | hu2, hm⟩
        · unfold lookupMem at hm
          rw [hls] at hm
          exact Or.inl hm
        · exact Or.inr ⟨u2, hu2, hm⟩

theorem notify_everyone_spec (s : EmitterState) (fails : Listener → Bool) :
    ∀ l, l ∈ (notify_everyone s fails).1 ↔ ∃ p ∈ s.listeners, l ∈ p.2 := by
  unfold notify_everyone
  intro l
  induction s.listeners with
  | nil => simp
  | cons p rest ih =>
    rw [List.foldr_cons]
    simp only [List.mem_append, List.mem_cons]
    rw [ih]
    constructor
    · rintro (h | ⟨q, hq, hm⟩)
      · exact ⟨p, Or.inl rfl, h⟩
      · exact ⟨q, Or.inr hq, hm⟩
    · rintro ⟨q, rfl | hq, hm⟩
      · exact Or.inl hm
      · exact Or.inr ⟨q, hq, hm⟩

/-- **C7**: on an invariant-satisfying registry, `notify_channel` calls
`event_notify` on exactly the listeners of users whose channel set
contains the event's channel id (in particular every listener of a
multi-device user), and on no other listener; `notify_everyone` calls
`event_notify` on exactly the registered listeners. -/
theorem c7_fanout_audience {s : EmitterState} (hInv : Inv s)
    (fails : Listener → Bool) (cid : Nat) :
    (notify_channel s fails cid).2.2 = true
    ∧ (∀ l, l ∈ (notify_channel s fails cid).1 ↔
        ∃ u, lookupMem s.users u cid ∧ lookupMem s.listeners u l)
    ∧ (∀ l, l ∈ (notify_everyone s fails).1 ↔ ∃ u, lookupMem s.listeners u l) := by
  obtain ⟨hC, hU, hL, hUL, hLU, hKC, hKU, hKL⟩ := hInv
  have hmemiff := inv_mem_iff ⟨hC, hU, hL, hUL, hLU, hKC, hKU, hKL⟩
  have hus : ∀ u, u ∈ (List.lookup cid s.channels).getD [] →
      (List.lookup u s.listeners).isSome = true := by
    intro u hu
    have hcu : lookupMem s.channels cid u := hu
    have huser : lookupMem s.users u cid := (hmemiff u cid).1 hcu
    rcases lookupMem_iff.1 huser with ⟨cs, hcs, -⟩
    exact hUL _ (lookup_mem hcs)
  obtain ⟨hok, hmem⟩ := fanoutUsers_spec s fails ((List.lookup cid s.channels).getD []) hus
  refine ⟨hok, ?_, ?_⟩
  · intro l
    rw [show (notify_channel s fails cid).1 =
        (fanoutUsers s fails ((List.lookup cid s.channels).getD [])).1 from rfl]
    rw [hmem l]
    constructor
    · rintro ⟨u, hu, hm⟩
      exact ⟨u, (hmemiff u cid).1 hu, hm⟩
    · rintro ⟨u, hu, hm⟩
      exact ⟨u, (hmemiff u cid).2 hu, hm⟩
  · intro l
    rw [notify_everyone_spec s fails l]
    constructor
    · rintro ⟨⟨a, b⟩, hp, hm⟩
      refine ⟨a, ?_⟩
      unfold lookupMem
      rw [mem_lookup hKL hp]
      exact hm
    · rintro ⟨u, hm⟩
      rcases lookupMem_iff.1 hm with ⟨ls, hls, hin⟩
      exact ⟨(u, ls), lookup_mem hls, hin⟩

theorem c7_fanout_audience_witness :
    Inv (runOps emptyState [Op.add ⟨0, some 1⟩ [5], Op.add ⟨1, some 1⟩ [5]]) ∧
    (notify_channel (runOps emptyState
        [Op.add ⟨0, some 1⟩ [5], Op.add ⟨1, some 1⟩ [5]]) (fun _ => false) 5).2.2 = true :=
  ⟨by decide,
   (c7_fanout_audience (by decide) (fun _ => false) 5).1⟩
theorem closesUnderLock_sends (ls : List Listener) :
    ∀ (rest : List FanAction) (d : Nat),
    closesUnderLock (ls.map .send ++ rest) d = closesUnderLock rest d := by
  induction ls with
  | nil => intro rest d; rfl
  | cons l ls ih =>
    intro rest d
    rw [List.map_cons, List.cons_append]
    show closesUnderLock (ls.map .send ++ rest) d = closesUnderLock rest d
    exact ih rest d

theorem closesUnderLock_closes_zero (ls : List Listener) :
    closesUnderLock (ls.map .close) 0 = false := by
  induction ls with
  | nil => rfl
  | cons l ls ih =>
    rw [List.map_cons]
    show (decide (0 < 0) || closesUnderLock (ls.map .close) 0) = false
    simpa using ih

/-- Trace shape of the fan-out routines: a `close` is never executed
while the lock is held. -/
theorem closes_after_release (snds cls : List Listener) :
    closesUnderLock ([FanAction.acquire] ++ snds.map .send ++ [FanAction.release] ++
      cls.map .close) 0 = false := by
  have h1 : [FanAction.acquire] ++ snds.map .send ++ [FanAction.release] ++ cls.map .close
      = FanAction.acquire ::
          (snds.map .send ++ (FanAction.release :: cls.map .close)) := by
    simp
  rw [h1]
  show closesUnderLock (snds.map .send ++ (FanAction.release :: cls.map .close)) 1 = false
  rw [closesUnderLock_sends]
  show closesUnderLock (cls.map .close) 0 = false
  exact closesUnderLock_closes_zero cls

theorem sends_under_lock_of_ne_nil (snds : List Listener) (h : snds ≠ [])
    (rest : List FanAction) :
    sendsUnderLock ([FanAction.acquire] ++ snds.map .send ++ rest) 0 = true := by
  cases snds with
  | nil => exact absurd rfl h
  | cons l ls =>
    rw [List.map_cons]
    show sendsUnderLock
      (FanAction.acquire :: (FanAction.send l :: (ls.map .send ++ rest))) 0 = true
    show (decide (0 < 1) || sendsUnderLock (ls.map .send ++ rest) 1) = true
    simp

theorem trace_closes_generic (r : List Listener × List Listener × Bool) :
    closesUnderLock ([FanAction.acquire] ++ r.1.map .send ++ [FanAction.release] ++
      (if r.2.2 = true then r.2.1.map .close else [])) 0 = false := by
  by_cases hok : r.2.2 = true
  · rw [if_pos hok]
    exact closes_after_release _ _
  · rw [if_neg hok]
    simpa using closes_after_release r.1 []

theorem trace_sends_generic (r : List Listener × List Listener × Bool)
    (h : r.1 ≠ []) (tail : List FanAction) :
    sendsUnderLock ([FanAction.acquire] ++ r.1.map .send ++ [FanAction.release] ++
      tail) 0 = true := by
  have h1 : [FanAction.acquire] ++ r.1.map .send ++ [FanAction.release] ++ tail
      = [FanAction.acquire] ++ r.1.map .send ++ (FanAction.release :: tail) := by
    simp
  rw [h1]
  exact sends_under_lock_of_ne_nil r.1 h _

/-- **C8** (amended): in all three fan-out routines the registry lock is
released before any listener `close` call (a `KeyError` escape also
releases it, and then no closes run at all) — but the `event_notify`
network writes do happen while the lock is held: whenever the routine
sends anything, some send occurs between acquisition and release. -/
theorem c8_amended (s : EmitterState) (fails : Listener → Bool) (cid uid : Nat) :
    closesUnderLock (notify_channel_trace s fails cid) 0 = false
    ∧ closesUnderLock (notify_channels_trace s fails uid) 0 = false
    ∧ closesUnderLock (notify_everyone_trace s fails) 0 = false
    ∧ ((notify_channel s fails cid).1 ≠ [] →
        sendsUnderLock (notify_channel_trace s fails cid) 0 = true)
    ∧ ((notify_everyone s fails).1 ≠ [] →
        sendsUnderLock (notify_everyone_trace s fails) 0 = true) := by
  refine ⟨?_, ?_, ?_, ?_, ?_⟩
  · exact trace_closes_generic (notify_channel s fails cid)
  · exact trace_closes_generic (notify_channels s fails uid)
  · exact closes_after_release (notify_everyone s fails).1 (notify_everyone s fails).2
  · intro h
    exact trace_sends_generic (notify_channel s fails cid) h _
  · intro h
    exact trace_sends_generic ((notify_everyone s fails).1, (notify_everyone s fails).2,
      true) h _

/-- **C8** (counterexample): with one identified listener subscribed to
channel 5, `notify_channel` performs its `event_notify` network write
while the registry lock is held, contradicting "no network write occurs
between lock acquisition and lock release". -/
theorem c8_counterexample :
    sendsUnderLock
      (notify_channel_trace (runOps emptyState [Op.add ⟨0, some 1⟩ [5]])
        (fun _ => false) 5) 0 = true := by
  decide

theorem c8_amended_witness :
    (notify_channel (runOps emptyState [Op.add ⟨0, some 1⟩ [5]])
        (fun _ => false) 5).1 ≠ [] ∧
    sendsUnderLock (notify_channel_trace (runOps emptyState [Op.add ⟨0, some 1⟩ [5]])
        (fun _ => false) 5) 0 = true :=
  ⟨by decide,
   (c8_amended (runOps emptyState [Op.add ⟨0, some 1⟩ [5]]) (fun _ => false) 5 0).2.2.2.1
     (by decide)⟩
/-- **C1** (amended): after every finite sequence of `add_listener` /
`remove_listener` calls from the empty registry in which each
`add_listener` call carries a non-empty channel snapshot that agrees
with the user's currently-registered snapshot (the `GoodTrace` side
condition), the three indices satisfy: a user is in a channel's member
set iff the channel is in the user's channel set; no index maps a key to
an empty set; and a listener is in its user's listener set iff it was
added (with a resolved user id) and not removed since (the last
conjunct needs no side condition). -/
theorem c1_registry_invariant (ops : List Op) (h : GoodTrace emptyState ops) :
    (∀ u c, lookupMem (runOps emptyState ops).channels c u ↔
            lookupMem (runOps emptyState ops).users u c)
    ∧ (∀ p ∈ (runOps emptyState ops).channels, p.2 ≠ [])
    ∧ (∀ p ∈ (runOps emptyState ops).users, p.2 ≠ [])
    ∧ (∀ p ∈ (runOps emptyState ops).listeners, p.2 ≠ [])
    ∧ (∀ u l, lookupMem (runOps emptyState ops).listeners u l ↔
        (l.user_id = some u ∧ trackOps (fun _ => false) ops l = true)) := by
  have hInv : Inv (runOps emptyState ops) :=
    goodTrace_inv ops emptyState (by decide) h
  obtain ⟨hC, hU, hL, hUL, hLU, hKC, hKU, hKL⟩ := hInv
  refine ⟨inv_mem_iff ⟨hC, hU, hL, hUL, hLU, hKC, hKU, hKL⟩, ?_, ?_, ?_, ?_⟩
  · exact fun p hp => (hC p hp).1
  · exact fun p hp => (hU p hp).1
  · exact fun p hp => (hL p hp).1
  · have := trackOps_run ops emptyState (fun _ => false)
      (by intro p hp; simp [emptyState] at hp)
      (by intro u l; unfold lookupMem; simp [emptyState])
    exact this.2

/-- **C1** (counterexample): a single `add_listener` call whose database
snapshot is the empty channel list — a user in no channels — leaves
`self._users` mapping that user to an **empty set**, violating "no index
maps a key to an empty set" (and this entry is never cleaned up: the
removal loop deletes the user key only from inside the loop body, which
an empty set never executes). -/
theorem c1_counterexample :
    (1, ([] : List Nat)) ∈ (runOps emptyState [Op.add ⟨0, some 1⟩ []]).users ∧
    (1, ([] : List Nat)) ∈
      (runOps emptyState [Op.add ⟨0, some 1⟩ [], Op.remove ⟨0, some 1⟩]).users := by
  constructor <;> decide

theorem c1_registry_invariant_witness :
    GoodTrace emptyState
      [Op.add ⟨0, some 1⟩ [5], Op.add ⟨1, some 1⟩ [5], Op.remove ⟨0, some 1⟩] ∧
    (∀ p ∈ (runOps emptyState
        [Op.add ⟨0, some 1⟩ [5], Op.add ⟨1, some 1⟩ [5],
         Op.remove ⟨0, some 1⟩]).users, p.2 ≠ []) :=
  ⟨by decide,
   (c1_registry_invariant
      [Op.add ⟨0, some 1⟩ [5], Op.add ⟨1, some 1⟩ [5], Op.remove ⟨0, some 1⟩]
      (by decide)).2.2.1⟩
theorem c3_amended_witness :
    processMessage (some (.obj [("op", .num 5)])) (fun _ => none) = .handled .ignored ∧
    processMessage (some (.obj [("x", .num 1)])) (fun _ => none) = .closedBadPayload ∧
    processMessage (some (.obj [("op", .num 2)])) (fun _ => none) = .closedBadPayload :=
  ⟨(c3_amended (fun _ => none)).1 [("op", .num 5)] 5 rfl (by norm_num) (by norm_num),
   (c3_amended (fun _ => none)).2.1 [("x", .num 1)] rfl,
   (c3_amended (fun _ => none)).2.2 [("op", .num 2)] rfl rfl⟩
end IOMirea